import Mathlib

/-!
Shallow embedding of the interactive graph canvas component (`GraphView`)
of this repository, together with proofs of the specification claims.

Coordinates are modelled as rationals (exact arithmetic for the
floating-point canvas coordinates of the source), JS `Map`s as
insertion-ordered association lists, JS `Set`s as insertion-ordered
duplicate-free lists, and the React component state as an explicit
record.  Every handler reads only the pre-event state (React batches
the `setX` calls fired inside one event handler), which the embedding
reflects by computing all writes from the incoming state record.
-/

namespace GraphView

/-- A 2D point in canvas or screen space. -/
structure Point where
  x : ℚ
  y : ℚ
deriving DecidableEq, Repr

/-- The `Note` entity of `types.ts`. -/
structure Note where
  id : String
  title : String
  content : String
  tags : List String
  isFavorite : Bool
  createdAt : ℚ
  updatedAt : ℚ
  x : ℚ
  y : ℚ
  links : List String
deriving DecidableEq, Repr

/-- The viewBox state: origin and extent in canvas units. -/
structure ViewBox where
  x : ℚ
  y : ℚ
  w : ℚ
  h : ℚ
deriving DecidableEq, Repr

/-- The selection box: origin plus signed width/height. -/
structure SelBox where
  x : ℚ
  y : ℚ
  w : ℚ
  h : ℚ
deriving DecidableEq, Repr

/-- `type ToolMode = 'PAN' | 'SELECT' | 'CONNECT' | 'DEFAULT'`. -/
inductive ToolMode where
  | PAN
  | SELECT
  | CONNECT
  | DEFAULT
deriving DecidableEq, Repr

/-- `const NODE_RADIUS = 30`. -/
def NODE_RADIUS : ℚ := 30

/-- `const getLinkKey = (a, b) => a < b ? a-b : b-a` (string concatenation
with a hyphen separator, lexicographically smaller id first). -/
def getLinkKey (a b : String) : String :=
  if a < b then a ++ "-" ++ b else b ++ "-" ++ a

/-! JS `Set` modelled as an insertion-ordered duplicate-free list. -/

/-- `set.add x` : append when absent. -/
def setAdd (s : List String) (x : String) : List String :=
  if x ∈ s then s else s ++ [x]

/-- `set.delete x` : remove the element. -/
def setDel (s : List String) (x : String) : List String :=
  s.filter (fun y => y ≠ x)

/-! JS `Map` modelled as an insertion-ordered association list. -/

/-- `map.get k` : the value at the first (for a JS `Map`: only)
occurrence of the key. -/
def mapGet (m : List (String × Point)) (k : String) : Option Point :=
  match m with
  | [] => none
  | p :: rest => if p.1 = k then some p.2 else mapGet rest k

/-- `map.set k v` : overwrite in place when the key exists (a JS `Map`
holds each key at most once), append otherwise. -/
def mapSet (m : List (String × Point)) (k : String) (v : Point) :
    List (String × Point) :=
  match m with
  | [] => [(k, v)]
  | p :: rest => if p.1 = k then (k, v) :: rest else p :: mapSet rest k v

/-- The key list of a map. -/
def mapKeys (m : List (String × Point)) : List String :=
  m.map (fun p => p.1)

/-- Events emitted to the external store via the component's callback props. -/
inductive Emit where
  | updateNotes (batch : List Note)
  | deleteNotes (ids : List String)
  | duplicateNotes (ids : List String)
  | selectNote (id : String)
deriving DecidableEq, Repr

/-- The local React state (and refs) of `GraphView`. -/
structure GraphState where
  viewBox : ViewBox
  mode : ToolMode
  isLayoutLocked : Bool
  selectedNodeIds : List String
  activeNodeId : Option String
  linkSourceId : Option String
  activeDragIds : List String
  dragOverrides : List (String × Point)
  selectionBox : Option SelBox
  selectionMenuPos : Option Point
  pointerStartPos : Point
  isDraggingRef : Bool
  lastPanPoint : Point
  dragStartOffsets : List (String × Point)
  dragCommitRef : Bool
  wasNodeSelectedRef : Bool
deriving DecidableEq, Repr

/-- A pointer event: device (client) coordinates, the additive modifier,
and the canvas-space position computed by `getPointerPosition` from the
current screen transform. -/
structure PtrEvent where
  clientX : ℚ
  clientY : ℚ
  shiftKey : Bool
  canvas : Point
deriving DecidableEq, Repr

/-- DOM context read through refs: `containerRef.current?.clientWidth`
(`none` when the container is unmounted) and the container's bounding
rect width/height for `toScreenCoords`. -/
structure DomCtx where
  clientWidth : Option ℚ
  rect : Option (ℚ × ℚ)
deriving DecidableEq, Repr

/-- `toScreenCoords`: canvas point to container-relative screen point,
degrading to the origin when the container ref is unready. -/
def toScreenCoords (ctx : DomCtx) (vb : ViewBox) (svgX svgY : ℚ) : Point :=
  match ctx.rect with
  | none => ⟨0, 0⟩
  | some r =>
      let scaleX := r.1 / vb.w
      let scaleY := r.2 / vb.h
      ⟨(svgX - vb.x) * scaleX, (svgY - vb.y) * scaleY⟩

/-! Event handlers, ported statement by statement from `GraphView`. -/

/-- The reconciliation `useEffect` that fires when the external `notes`
prop changes: when a drag commit is pending, clear the overrides and the
active drag set atomically and reset the flag. -/
def reconcileNotes (s : GraphState) : GraphState :=
  if s.dragCommitRef then
    { s with dragOverrides := [], activeDragIds := [], dragCommitRef := false }
  else s

/-- `handlePointerDown` (background pointer-down on the SVG surface). -/
def handlePointerDown (e : PtrEvent) (s : GraphState) : GraphState :=
  let s1 : GraphState :=
    { s with activeNodeId := none
             selectionMenuPos := none
             linkSourceId := if s.mode = ToolMode.CONNECT then s.linkSourceId else none
             pointerStartPos := ⟨e.clientX, e.clientY⟩
             lastPanPoint := ⟨e.clientX, e.clientY⟩
             isDraggingRef := false }
  if s.mode = ToolMode.SELECT then
    { s1 with selectionBox := some ⟨e.canvas.x, e.canvas.y, 0, 0⟩
              selectedNodeIds := if e.shiftKey then s1.selectedNodeIds else []
              isDraggingRef := true }
  else if s.mode = ToolMode.PAN ∨ s.mode = ToolMode.DEFAULT then
    { s1 with isDraggingRef := true
              selectedNodeIds :=
                if s.mode = ToolMode.DEFAULT ∧ ¬ e.shiftKey then [] else s1.selectedNodeIds }
  else s1

/-- The override recomputation of the drag branch of `handlePointerMove`:
for each active drag id that has a start offset, set its live override to
`pointerCanvasPos - storedOffset`. -/
def moveOverrides (offsets : List (String × Point)) (coords : Point)
    (dragIds : List String) (overrides : List (String × Point)) :
    List (String × Point) :=
  dragIds.foldl (fun m id =>
    match mapGet offsets id with
    | some off => mapSet m id ⟨coords.x - off.x, coords.y - off.y⟩
    | none => m) overrides

/-- `handlePointerMove`.  `ctx.clientWidth` models
`containerRef.current?.clientWidth || 1` (zero or missing degrades to 1). -/
def handlePointerMove (ctx : DomCtx) (e : PtrEvent) (s : GraphState) : GraphState :=
  if ¬ s.isDraggingRef then s
  else
    let coords := e.canvas
    if s.mode = ToolMode.SELECT ∧ s.selectionBox.isSome then
      match s.selectionBox with
      | some prev =>
          { s with selectionBox := some ⟨prev.x, prev.y, coords.x - prev.x, coords.y - prev.y⟩ }
      | none => s
    else if s.mode = ToolMode.PAN ∨ (s.mode = ToolMode.DEFAULT ∧ s.activeDragIds.length = 0) then
      let dx := e.clientX - s.lastPanPoint.x
      let dy := e.clientY - s.lastPanPoint.y
      let clientW : ℚ :=
        match ctx.clientWidth with
        | some w => if w = 0 then 1 else w
        | none => 1
      let scaleX := s.viewBox.w / clientW
      { s with viewBox := { s.viewBox with x := s.viewBox.x - dx * scaleX
                                           y := s.viewBox.y - dy * scaleX }
               lastPanPoint := ⟨e.clientX, e.clientY⟩ }
    else if s.activeDragIds.length > 0 ∧ ¬ s.isLayoutLocked then
      let changed := s.activeDragIds.any (fun id => (mapGet s.dragStartOffsets id).isSome)
      let newOverrides := moveOverrides s.dragStartOffsets coords s.activeDragIds s.dragOverrides
      if changed then { s with dragOverrides := newOverrides } else s
    else s

/-- The update batch built in `handlePointerUp`: for each map entry of
`dragOverrides` whose id matches a note in the current list, that note
snapshot with its position replaced by the final override. -/
def buildDragUpdates (notes : List Note) (overrides : List (String × Point)) :
    List Note :=
  overrides.foldl (fun acc p =>
    match notes.find? (fun n => n.id = p.1) with
    | some note => acc ++ [{ note with x := p.2.x, y := p.2.y }]
    | none => acc) []

/-- The drag-commit branch of `handlePointerUp`. -/
def dragUpBranch (notes : List Note) (s : GraphState) : GraphState × List Emit :=
  if s.activeDragIds.length > 0 then
    let updates := buildDragUpdates notes s.dragOverrides
    if updates.length > 0 then
      ({ s with dragCommitRef := true, dragStartOffsets := [] },
       [Emit.updateNotes updates])
    else
      ({ s with activeDragIds := [], dragOverrides := [], dragStartOffsets := [] }, [])
  else (s, [])

/-- The circle-vs-rectangle hit test of the rubber-band release: squared
distance from the note's centre to the clamped closest point on the
(normalized) rectangle, compared against the squared node radius. -/
def hitTestNode (x y w h : ℚ) (note : Note) : Bool :=
  let closestX := max x (min note.x (x + w))
  let closestY := max y (min note.y (y + h))
  let dx := note.x - closestX
  let dy := note.y - closestY
  dx * dx + dy * dy < NODE_RADIUS * NODE_RADIUS

/-- The rubber-band branch of `handlePointerUp`: normalize the selection
box, hit-test every note, seed with the previous selection when the
additive modifier is held, and place the bulk menu at the centroid. -/
def selectUpBranch (ctx : DomCtx) (notes : List Note) (e : PtrEvent) (s : GraphState) :
    GraphState :=
  if s.mode = ToolMode.SELECT then
    match s.selectionBox with
    | none => s
    | some box =>
        let x := min box.x (box.x + box.w)
        let y := min box.y (box.y + box.h)
        let w := |box.w|
        let h := |box.h|
        let seed := if e.shiftKey then s.selectedNodeIds else []
        let newSelection := notes.foldl (fun sel note =>
          if hitTestNode x y w h note then setAdd sel note.id else sel) seed
        let s1 : GraphState :=
          { s with selectedNodeIds := newSelection, selectionBox := none }
        if newSelection.length > 0 then
          let selectedNotes := notes.filter (fun n => n.id ∈ newSelection)
          if selectedNotes.length > 0 then
            let avgX := (selectedNotes.map (fun n => n.x)).sum / (selectedNotes.length : ℚ)
            let avgY := (selectedNotes.map (fun n => n.y)).sum / (selectedNotes.length : ℚ)
            { s1 with selectionMenuPos := some (toScreenCoords ctx s.viewBox avgX avgY) }
          else s1
        else s1
  else s

/-- `handlePointerUp` (background pointer-up): drag commit followed by
rubber-band finalization.  The two branches touch disjoint state fields,
so sequential composition coincides with React's batched semantics. -/
def handlePointerUp (ctx : DomCtx) (notes : List Note) (e : PtrEvent) (s : GraphState) :
    GraphState × List Emit :=
  let s0 : GraphState := { s with isDraggingRef := false }
  let r1 := dragUpBranch notes s0
  (selectUpBranch ctx notes e r1.1, r1.2)

/-- `source.links.includes(b) ? filter out b : append b`. -/
def linkToggle (links : List String) (b : String) : List String :=
  if b ∈ links then links.filter (fun l => l ≠ b) else links ++ [b]

/-- `handleNodePointerDown`: link toggling in Connect mode, otherwise
selection extension and drag-session initiation. -/
def handleNodePointerDown (notes : List Note) (e : PtrEvent) (note : Note)
    (s : GraphState) : GraphState × List Emit :=
  let s0 : GraphState := { s with wasNodeSelectedRef := note.id ∈ s.selectedNodeIds }
  if s.mode = ToolMode.CONNECT then
    match s.linkSourceId with
    | some src =>
        if src ≠ note.id then
          let es : List Emit :=
            match notes.find? (fun n => n.id = src) with
            | some source =>
                [Emit.updateNotes [{ source with links := linkToggle source.links note.id }]]
            | none => []
          ({ s0 with linkSourceId := none }, es)
        else ({ s0 with linkSourceId := some note.id }, [])
    | none => ({ s0 with linkSourceId := some note.id }, [])
  else
    let newSelection :=
      if note.id ∈ s.selectedNodeIds then s.selectedNodeIds
      else if ¬ e.shiftKey then [note.id]
      else setAdd s.selectedNodeIds note.id
    let s1 : GraphState :=
      { s0 with selectedNodeIds := newSelection, selectionMenuPos := none, activeNodeId := none }
    if ¬ s.isLayoutLocked ∧ s.mode ≠ ToolMode.PAN ∧ s.mode ≠ ToolMode.SELECT then
      let coords := e.canvas
      let nodesToDrag := if note.id ∈ newSelection then newSelection else [note.id]
      let init : List (String × Point) × List (String × Point) × List String := ([], [], [])
      let res := nodesToDrag.foldl (fun acc id =>
        match notes.find? (fun n => n.id = id) with
        | some n =>
            (mapSet acc.1 id ⟨coords.x - n.x, coords.y - n.y⟩,
             mapSet acc.2.1 id ⟨n.x, n.y⟩,
             setAdd acc.2.2 id)
        | none => acc) init
      ({ s1 with dragStartOffsets := res.1
                 dragOverrides := res.2.1
                 activeDragIds := res.2.2
                 pointerStartPos := ⟨e.clientX, e.clientY⟩
                 isDraggingRef := true }, [])
    else (s1, [])

/-- `handleNodePointerUp`: click-vs-drag disambiguation (`Math.hypot < 5`
is expressed by the equivalent squared comparison `dx^2 + dy^2 < 25`),
shift-deselection, and the bulk-menu condition — both read the
pre-gesture selection, as the source closure does. -/
def handleNodePointerUp (ctx : DomCtx) (notes : List Note) (e : PtrEvent)
    (noteId : String) (s : GraphState) : GraphState :=
  let dx := e.clientX - s.pointerStartPos.x
  let dy := e.clientY - s.pointerStartPos.y
  if dx * dx + dy * dy < 25 ∧ s.mode ≠ ToolMode.CONNECT then
    let sel1 :=
      if s.wasNodeSelectedRef ∧ noteId ∈ s.selectedNodeIds ∧ e.shiftKey then
        setDel s.selectedNodeIds noteId
      else s.selectedNodeIds
    let s1 : GraphState := { s with selectedNodeIds := sel1 }
    if s.selectedNodeIds.length > 1 ∧ noteId ∈ s.selectedNodeIds then
      match notes.find? (fun n => n.id = noteId) with
      | some note =>
          { s1 with selectionMenuPos := some (toScreenCoords ctx s.viewBox note.x note.y) }
      | none => s1
    else s1
  else s

/-- The Escape branch of the global `handleKeyDown`. -/
def escapeStep (s : GraphState) : GraphState :=
  { s with selectedNodeIds := []
           activeNodeId := none
           selectionMenuPos := none
           linkSourceId := none
           mode := ToolMode.DEFAULT }

/-- The global `handleKeyDown` listener.  `inputFocused` models
`document.activeElement` being an INPUT or TEXTAREA; note that the
source checks it only inside the Delete/Backspace branch (where a
focused input causes an early return that also skips the Escape check),
while the Escape branch runs unconditionally. -/
def handleKeyDown (key : String) (inputFocused : Bool) (s : GraphState) :
    GraphState × List Emit :=
  if s.selectedNodeIds.length > 0 ∧ (key = "Delete" ∨ key = "Backspace") then
    if inputFocused then (s, [])
    else
      let s1 : GraphState :=
        { s with selectedNodeIds := [], selectionMenuPos := none, activeNodeId := none }
      let es : List Emit := [Emit.deleteNotes s.selectedNodeIds]
      if key = "Escape" then (escapeStep s1, es) else (s1, es)
  else if key = "Escape" then (escapeStep s, [])
  else (s, [])

/-- The `onWheel` handler: multiply the viewBox extent by 1.05 when the
wheel delta is positive and by 0.95 otherwise, leaving the origin fixed. -/
def handleWheel (deltaY : ℚ) (s : GraphState) : GraphState :=
  let scale : ℚ := if deltaY > 0 then 21 / 20 else 19 / 20
  { s with viewBox := { s.viewBox with w := s.viewBox.w * scale, h := s.viewBox.h * scale } }

/-! Render layers. -/

/-- A rendered edge element: its React key and the endpoint ids and
positions the `line` coordinates are taken from. -/
structure EdgeEl where
  key : String
  sId : String
  tId : String
  sPos : Point
  tPos : Point
deriving DecidableEq, Repr

/-- One link occurrence of `StaticConnectionsLayer`: dedupe by key, look
up the target, skip the edge when either endpoint is dragging. -/
def staticConnStep (notes : List Note) (activeDragIds : List String) (source : Note)
    (acc : List String × List EdgeEl) (targetId : String) :
    List String × List EdgeEl :=
  let key := getLinkKey source.id targetId
  if key ∈ acc.1 then acc
  else
    let processed := acc.1 ++ [key]
    match notes.find? (fun n => n.id = targetId) with
    | none => (processed, acc.2)
    | some target =>
        if source.id ∈ activeDragIds ∨ target.id ∈ activeDragIds then (processed, acc.2)
        else
          (processed,
           acc.2 ++ [⟨key, source.id, targetId, ⟨source.x, source.y⟩, ⟨target.x, target.y⟩⟩])

/-- `StaticConnectionsLayer`: the list of edge elements rendered for
settled edges. -/
def staticConnections (notes : List Note) (activeDragIds : List String) : List EdgeEl :=
  (notes.foldl (fun acc source =>
    source.links.foldl (staticConnStep notes activeDragIds source) acc) ([], [])).2

/-- `getPos` of `DynamicConnectionsLayer`: override position when
present, else the note's stored position, else the origin. -/
def dynGetPos (dragOverrides : List (String × Point)) (id : String) (n : Option Note) :
    Point :=
  match mapGet dragOverrides id with
  | some o => o
  | none =>
      match n with
      | some note => ⟨note.x, note.y⟩
      | none => ⟨0, 0⟩

/-- One link occurrence of `DynamicConnectionsLayer`: look up the
target, keep only edges with a dragging endpoint, dedupe by key. -/
def dynamicConnStep (notes : List Note) (dragOverrides : List (String × Point))
    (activeDragIds : List String) (source : Note)
    (acc : List String × List EdgeEl) (targetId : String) :
    List String × List EdgeEl :=
  match notes.find? (fun n => n.id = targetId) with
  | none => acc
  | some target =>
      let sourceIsDragging := source.id ∈ activeDragIds
      let targetIsDragging := targetId ∈ activeDragIds
      if ¬ sourceIsDragging ∧ ¬ targetIsDragging then acc
      else
        let key := getLinkKey source.id targetId
        if key ∈ acc.1 then acc
        else
          let sPos := dynGetPos dragOverrides source.id (some source)
          let tPos := dynGetPos dragOverrides targetId (some target)
          (acc.1 ++ [key], acc.2 ++ [⟨key, source.id, targetId, sPos, tPos⟩])

/-- `DynamicConnectionsLayer`: nothing when no drag is active, else the
edge elements whose endpoints include a dragging node. -/
def dynamicConnections (notes : List Note) (dragOverrides : List (String × Point))
    (activeDragIds : List String) : List EdgeEl :=
  if activeDragIds.length = 0 then []
  else
    (notes.foldl (fun acc source =>
      source.links.foldl (dynamicConnStep notes dragOverrides activeDragIds source) acc)
      ([], [])).2

/-- `StaticNodesLayer`: rendered (id, position) entries — nodes in the
active drag set are skipped, the rest render at their stored position. -/
def staticNodesRendered (notes : List Note) (activeDragIds : List String) :
    List (String × Point) :=
  notes.filterMap (fun n =>
    if n.id ∈ activeDragIds then none else some (n.id, (⟨n.x, n.y⟩ : Point)))

/-- `DynamicNodesLayer`: rendered (id, position) entries — nothing when
the override map is empty, else every note with an override renders at
the override position. -/
def dynamicNodesRendered (notes : List Note) (dragOverrides : List (String × Point)) :
    List (String × Point) :=
  if dragOverrides.length = 0 then []
  else notes.filterMap (fun n => (mapGet dragOverrides n.id).map (fun p => (n.id, p)))

/-- The per-note merge of the store-side batch update
(`updateMap.get(n.id) || n` in `handleBatchUpdateNotes` of `App.tsx`). -/
def mergeEntry (updates : List Note) (n : Note) : Note :=
  match updates.find? (fun u => u.id = n.id) with
  | some u => u
  | none => n

/-- The store-side batch merge (`handleBatchUpdateNotes` in `App.tsx`):
replace each note of the authoritative list by the update carrying its
id, keeping the rest. -/
def applyUpdates (prev : List Note) (updates : List Note) : List Note :=
  prev.map (mergeEntry updates)

/-! Basic lemmas about the JS `Set` and `Map` models. -/

theorem mem_setAdd (s : List String) (x id : String) :
    id ∈ setAdd s x ↔ id ∈ s ∨ id = x := by
  unfold setAdd
  by_cases h : x ∈ s
  · simp only [if_pos h]
    exact ⟨Or.inl, fun h2 => h2.elim (fun hi => hi) (fun he => he ▸ h)⟩
  · simp [if_neg h]

theorem mapKeys_cons (p : String × Point) (rest : List (String × Point)) :
    mapKeys (p :: rest) = p.1 :: mapKeys rest := by
  simp [mapKeys]

theorem mem_mapKeys (m : List (String × Point)) (id : String) :
    id ∈ mapKeys m ↔ ∃ v, (id, v) ∈ m := by
  induction m with
  | nil => simp [mapKeys]
  | cons p rest ih =>
      rw [mapKeys_cons]
      simp only [List.mem_cons, ih]
      constructor
      · rintro (h | ⟨v, hv⟩)
        · exact ⟨p.2, Or.inl (by rw [h])⟩
        · exact ⟨v, Or.inr hv⟩
      · rintro ⟨v, h | h⟩
        · exact Or.inl (by rw [← h])
        · exact Or.inr ⟨v, h⟩

theorem mapGet_mapSet_self (m : List (String × Point)) (k : String) (v : Point) :
    mapGet (mapSet m k v) k = some v := by
  induction m with
  | nil => simp [mapSet, mapGet]
  | cons p rest ih =>
      by_cases h : p.1 = k
      · simp [mapSet, mapGet, h]
      · simp [mapSet, mapGet, h, ih]

theorem mapGet_mapSet_ne (m : List (String × Point)) (k : String) (v : Point)
    (id : String) (h : id ≠ k) :
    mapGet (mapSet m k v) id = mapGet m id := by
  have hk : ¬ k = id := fun he => h he.symm
  induction m with
  | nil => simp [mapSet, mapGet, hk]
  | cons p rest ih =>
      by_cases hp : p.1 = k
      · have hpid : ¬ p.1 = id := by rw [hp]; exact hk
        simp [mapSet, mapGet, hp, hk, hpid]
      · by_cases hid : p.1 = id
        · simp [mapSet, mapGet, hp, hid, hk, h]
        · simp [mapSet, mapGet, hp, hid, ih]

theorem mem_mapKeys_mapSet (m : List (String × Point)) (k : String) (v : Point)
    (id : String) :
    id ∈ mapKeys (mapSet m k v) ↔ id ∈ mapKeys m ∨ id = k := by
  induction m with
  | nil =>
      simp only [mapSet, mapKeys, List.map_cons, List.map_nil, List.mem_singleton,
        List.not_mem_nil, false_or]
  | cons p rest ih =>
      by_cases hp : p.1 = k
      · rw [mapSet, if_pos hp, mapKeys_cons, mapKeys_cons]
        simp only [List.mem_cons, hp]
        tauto
      · rw [mapSet, if_neg hp, mapKeys_cons, mapKeys_cons]
        simp only [List.mem_cons, ih]
        tauto

theorem mapGet_isSome_iff_mem_mapKeys (m : List (String × Point)) (id : String) :
    (mapGet m id).isSome ↔ id ∈ mapKeys m := by
  induction m with
  | nil => simp [mapGet, mapKeys]
  | cons p rest ih =>
      rw [mapKeys_cons]
      by_cases hp : p.1 = id
      · simp [mapGet, hp]
      · have hip : ¬ id = p.1 := fun he => hp he.symm
        simp only [mapGet, if_neg hp, List.mem_cons, ih]
        simp [hip]

/-! A base example state used by concrete witnesses. -/

def exState : GraphState where
  viewBox := ⟨0, 0, 1200, 800⟩
  mode := ToolMode.DEFAULT
  isLayoutLocked := false
  selectedNodeIds := []
  activeNodeId := none
  linkSourceId := none
  activeDragIds := []
  dragOverrides := []
  selectionBox := none
  selectionMenuPos := none
  pointerStartPos := ⟨0, 0⟩
  isDraggingRef := false
  lastPanPoint := ⟨0, 0⟩
  dragStartOffsets := []
  dragCommitRef := false
  wasNodeSelectedRef := false

def ctx600 : DomCtx := ⟨some 600, some (600, 400)⟩

def ev10 : PtrEvent := ⟨10, 0, false, ⟨20, 0⟩⟩

def panState : GraphState :=
  { exState with mode := ToolMode.PAN, isDraggingRef := true }

def panStateHalf : GraphState :=
  { panState with viewBox := ⟨0, 0, 600, 400⟩ }

/-- Claim C10: every wheel event changes only the viewport's width and
height — each multiplied by 1.05 when the wheel delta is positive and by
0.95 otherwise — and leaves the viewport origin and all other component
state unchanged, so zoom is always anchored at the viewport's top-left
corner. -/
theorem wheel_zoom_anchors_top_left (deltaY : ℚ) (s : GraphState) :
    (handleWheel deltaY s).viewBox.w
        = s.viewBox.w * (if deltaY > 0 then 105 / 100 else 95 / 100)
    ∧ (handleWheel deltaY s).viewBox.h
        = s.viewBox.h * (if deltaY > 0 then 105 / 100 else 95 / 100)
    ∧ (handleWheel deltaY s).viewBox.x = s.viewBox.x
    ∧ (handleWheel deltaY s).viewBox.y = s.viewBox.y
    ∧ (handleWheel deltaY s).mode = s.mode
    ∧ (handleWheel deltaY s).isLayoutLocked = s.isLayoutLocked
    ∧ (handleWheel deltaY s).selectedNodeIds = s.selectedNodeIds
    ∧ (handleWheel deltaY s).activeNodeId = s.activeNodeId
    ∧ (handleWheel deltaY s).linkSourceId = s.linkSourceId
    ∧ (handleWheel deltaY s).activeDragIds = s.activeDragIds
    ∧ (handleWheel deltaY s).dragOverrides = s.dragOverrides
    ∧ (handleWheel deltaY s).selectionBox = s.selectionBox
    ∧ (handleWheel deltaY s).selectionMenuPos = s.selectionMenuPos
    ∧ (handleWheel deltaY s).dragStartOffsets = s.dragStartOffsets
    ∧ (handleWheel deltaY s).dragCommitRef = s.dragCommitRef := by
  unfold handleWheel
  refine ⟨?_, ?_, rfl, rfl, rfl, rfl, rfl, rfl, rfl, rfl, rfl, rfl, rfl, rfl, rfl⟩ <;>
    · split <;> norm_num

/-- Claim C6: a pan move displaces the viewport origin by the device
pixel pointer delta multiplied by the single ratio
viewportWidth / surfaceWidth on both axes; with viewport width 1200 over
a 600 device-pixel surface a 10 device-pixel drag pans the viewport by
exactly 20 canvas units, and halving the viewport width halves the pan
distance produced by the same device-pixel drag. -/
theorem pan_uses_single_width_ratio :
    (∀ (ctx : DomCtx) (e : PtrEvent) (s : GraphState) (cw : ℚ),
        ctx.clientWidth = some cw → cw ≠ 0 →
        s.isDraggingRef = true →
        (s.mode = ToolMode.PAN ∨ (s.mode = ToolMode.DEFAULT ∧ s.activeDragIds = [])) →
        (handlePointerMove ctx e s).viewBox.x
            = s.viewBox.x - (e.clientX - s.lastPanPoint.x) * (s.viewBox.w / cw)
          ∧ (handlePointerMove ctx e s).viewBox.y
            = s.viewBox.y - (e.clientY - s.lastPanPoint.y) * (s.viewBox.w / cw))
    ∧ panState.viewBox.x - (handlePointerMove ctx600 ev10 panState).viewBox.x = 20
    ∧ panStateHalf.viewBox.x - (handlePointerMove ctx600 ev10 panStateHalf).viewBox.x = 10 := by
  refine ⟨?_,
    by norm_num [handlePointerMove, panState, exState, ctx600, ev10],
    by norm_num [handlePointerMove, panStateHalf, panState, exState, ctx600, ev10]⟩
  intro ctx e s cw hcw hcw0 hdrag hmode
  rcases hmode with h | ⟨h, hlen⟩
  · simp [handlePointerMove, hdrag, h, hcw, hcw0]
  · simp [handlePointerMove, hdrag, h, hcw, hcw0, hlen]

/-- Witness for the pan theorem: the general ratio formula instantiated
at the concrete 1200-wide viewport over a 600-pixel surface. -/
theorem pan_uses_single_width_ratio_witness :
    (handlePointerMove ctx600 ev10 panState).viewBox.x
        = panState.viewBox.x
            - (ev10.clientX - panState.lastPanPoint.x) * (panState.viewBox.w / 600)
    ∧ (handlePointerMove ctx600 ev10 panState).viewBox.y
        = panState.viewBox.y
            - (ev10.clientY - panState.lastPanPoint.y) * (panState.viewBox.w / 600) :=
  pan_uses_single_width_ratio.1 ctx600 ev10 panState 600 rfl (by norm_num) rfl (Or.inl rfl)

/-! Rubber-band selection. -/

theorem mem_hitFoldl (notes : List Note) (f : Note → Bool) (seed : List String)
    (id : String) :
    id ∈ notes.foldl (fun sel note => if f note then setAdd sel note.id else sel) seed
      ↔ id ∈ seed ∨ ∃ n ∈ notes, n.id = id ∧ f n = true := by
  induction notes generalizing seed with
  | nil => simp
  | cons a l ih =>
      simp only [List.foldl_cons, List.mem_cons]
      by_cases h : f a
      · rw [if_pos h, ih]
        simp only [mem_setAdd, h]
        constructor
        · rintro ((hs | he) | ⟨n, hn, hid, hf⟩)
          · exact Or.inl hs
          · exact Or.inr ⟨a, Or.inl rfl, he.symm, h⟩
          · exact Or.inr ⟨n, Or.inr hn, hid, hf⟩
        · rintro (hs | ⟨n, hn | hn, hid, hf⟩)
          · exact Or.inl (Or.inl hs)
          · exact Or.inl (Or.inr (by rw [← hid, hn]))
          · exact Or.inr ⟨n, hn, hid, hf⟩
      · rw [if_neg h, ih]
        constructor
        · rintro (hs | ⟨n, hn, hid, hf⟩)
          · exact Or.inl hs
          · exact Or.inr ⟨n, Or.inr hn, hid, hf⟩
        · rintro (hs | ⟨n, hn | hn, hid, hf⟩)
          · exact Or.inl hs
          · exact absurd (hn ▸ hf) (by simpa using h)
          · exact Or.inr ⟨n, hn, hid, hf⟩

/-- `dragUpBranch` never touches the selection, mode, box or viewport. -/
theorem dragUpBranch_fields (notes : List Note) (s : GraphState) :
    (dragUpBranch notes s).1.selectedNodeIds = s.selectedNodeIds
    ∧ (dragUpBranch notes s).1.mode = s.mode
    ∧ (dragUpBranch notes s).1.selectionBox = s.selectionBox
    ∧ (dragUpBranch notes s).1.viewBox = s.viewBox
    ∧ (dragUpBranch notes s).1.selectionMenuPos = s.selectionMenuPos := by
  unfold dragUpBranch
  dsimp only
  split
  · split <;> exact ⟨rfl, rfl, rfl, rfl, rfl⟩
  · exact ⟨rfl, rfl, rfl, rfl, rfl⟩

/-- The selection computed by the rubber-band release branch. -/
theorem selectUpBranch_selectedNodeIds (ctx : DomCtx) (notes : List Note)
    (e : PtrEvent) (s : GraphState) (box : SelBox)
    (hmode : s.mode = ToolMode.SELECT) (hbox : s.selectionBox = some box) :
    (selectUpBranch ctx notes e s).selectedNodeIds
      = notes.foldl (fun sel note =>
          if hitTestNode (min box.x (box.x + box.w)) (min box.y (box.y + box.h))
              |box.w| |box.h| note then setAdd sel note.id else sel)
          (if e.shiftKey then s.selectedNodeIds else []) := by
  unfold selectUpBranch
  simp only [hmode, hbox]
  split <;> (try split) <;> (try split) <;> (try split) <;> first
    | rfl
    | simp_all

def noteC : Note := ⟨"c", "", "", [], false, 0, 0, 100, 100, []⟩

def selState (box : SelBox) : GraphState :=
  { exState with mode := ToolMode.SELECT, selectionBox := some box, isDraggingRef := true }

def evUp : PtrEvent := ⟨0, 0, false, ⟨0, 0⟩⟩

/-- Claim C5: on rubber-band release the selection box is normalized to
positive width and height, and a node is added to the resulting
selection exactly when the squared distance from its center to the
clamped closest point on the normalized rectangle is strictly below the
squared node radius; a node at (100,100) is selected by the rectangle
from (0,0) to (95,100) and not by the one from (0,0) to (50,50). -/
theorem rubber_band_selects_by_clamped_distance :
    (∀ (ctx : DomCtx) (notes : List Note) (e : PtrEvent) (s : GraphState) (box : SelBox),
        s.mode = ToolMode.SELECT → s.selectionBox = some box →
        ∀ id, id ∈ ((handlePointerUp ctx notes e s).1).selectedNodeIds
          ↔ ((e.shiftKey = true ∧ id ∈ s.selectedNodeIds)
             ∨ ∃ n ∈ notes, n.id = id ∧
                 hitTestNode (min box.x (box.x + box.w)) (min box.y (box.y + box.h))
                   |box.w| |box.h| n = true))
    ∧ "c" ∈ ((handlePointerUp ctx600 [noteC] evUp (selState ⟨0, 0, 95, 100⟩)).1).selectedNodeIds
    ∧ "c" ∉ ((handlePointerUp ctx600 [noteC] evUp (selState ⟨0, 0, 50, 50⟩)).1).selectedNodeIds := by
  have hgen : ∀ (ctx : DomCtx) (notes : List Note) (e : PtrEvent) (s : GraphState)
      (box : SelBox),
      s.mode = ToolMode.SELECT → s.selectionBox = some box →
      ∀ id, id ∈ ((handlePointerUp ctx notes e s).1).selectedNodeIds
        ↔ ((e.shiftKey = true ∧ id ∈ s.selectedNodeIds)
           ∨ ∃ n ∈ notes, n.id = id ∧
               hitTestNode (min box.x (box.x + box.w)) (min box.y (box.y + box.h))
                 |box.w| |box.h| n = true) := by
    intro ctx notes e s box hmode hbox id
    unfold handlePointerUp
    dsimp only
    have hf := dragUpBranch_fields notes { s with isDraggingRef := false }
    have hmode1 : (dragUpBranch notes { s with isDraggingRef := false }).1.mode
        = ToolMode.SELECT := by rw [hf.2.1]; exact hmode
    have hbox1 : (dragUpBranch notes { s with isDraggingRef := false }).1.selectionBox
        = some box := by rw [hf.2.2.1]; exact hbox
    rw [selectUpBranch_selectedNodeIds ctx notes e _ box hmode1 hbox1, mem_hitFoldl, hf.1]
    by_cases hsh : e.shiftKey = true <;> simp [hsh]
  refine ⟨hgen, ?_, ?_⟩
  · rw [hgen ctx600 [noteC] evUp _ ⟨0, 0, 95, 100⟩ rfl rfl]
    refine Or.inr ⟨noteC, by simp, rfl, ?_⟩
    norm_num [hitTestNode, noteC, NODE_RADIUS]
  · rw [hgen ctx600 [noteC] evUp _ ⟨0, 0, 50, 50⟩ rfl rfl]
    rintro (⟨hsh, _⟩ | ⟨n, hn, hid, hhit⟩)
    · exact absurd hsh (by simp [evUp])
    · rw [List.mem_singleton] at hn
      subst hn
      rw [show ((⟨0, 0, 50, 50⟩ : SelBox)).x = 0 from rfl] at hhit
      norm_num [hitTestNode, noteC, NODE_RADIUS] at hhit

/-- Witness for the rubber-band theorem: its general conjunct applied at
the concrete boundary example. -/
theorem rubber_band_selects_by_clamped_distance_witness :
    "c" ∈ ((handlePointerUp ctx600 [noteC] evUp (selState ⟨0, 0, 95, 100⟩)).1).selectedNodeIds
      ↔ ((evUp.shiftKey = true ∧ "c" ∈ (selState ⟨0, 0, 95, 100⟩).selectedNodeIds)
         ∨ ∃ n ∈ [noteC], n.id = "c" ∧
             hitTestNode (min (0 : ℚ) (0 + 95)) (min (0 : ℚ) (0 + 100)) |(95 : ℚ)| |(100 : ℚ)| n
               = true) :=
  rubber_band_selects_by_clamped_distance.1 ctx600 [noteC] evUp
    (selState ⟨0, 0, 95, 100⟩) ⟨0, 0, 95, 100⟩ rfl rfl "c"

/-! Global key handling. -/

def focusState : GraphState :=
  { exState with mode := ToolMode.PAN, selectedNodeIds := ["a"], linkSourceId := some "b" }

/-- Counterexample to claim C9 as stated: with a text-input surface
focused, pressing Escape still fires — it resets the mode and clears the
selection — so global key handling does not fire only when no text input
has focus. -/
theorem escape_fires_despite_input_focus :
    (handleKeyDown "Escape" true focusState).1.mode = ToolMode.DEFAULT
    ∧ focusState.mode = ToolMode.PAN
    ∧ (handleKeyDown "Escape" true focusState).1.selectedNodeIds = []
    ∧ focusState.selectedNodeIds = ["a"]
    ∧ (handleKeyDown "Escape" true focusState).1 ≠ focusState := by
  refine ⟨rfl, rfl, rfl, rfl, fun h => ?_⟩
  have hm := congrArg GraphState.mode h
  rw [show (handleKeyDown "Escape" true focusState).1.mode = ToolMode.DEFAULT from rfl,
    show focusState.mode = ToolMode.PAN from rfl] at hm
  exact ToolMode.noConfusion hm

/-- Claim C9 amended: the no-text-input-focus guard applies only to the
Delete/Backspace branch — Delete or Backspace with a non-empty selection
and no focused text input triggers batch deletion of the selected
identifiers and clears the selection, menu and active-detail state (and
is a no-op when a text input is focused), while Escape fires regardless
of focus, clearing selection, active detail, menu and link source and
resetting the mode to Default. -/
theorem key_handling_guard_scope :
    (∀ (key : String) (foc : Bool) (s : GraphState),
        s.selectedNodeIds ≠ [] → (key = "Delete" ∨ key = "Backspace") →
        (foc = true → handleKeyDown key foc s = (s, []))
        ∧ (foc = false →
            (handleKeyDown key foc s).2 = [Emit.deleteNotes s.selectedNodeIds]
            ∧ (handleKeyDown key foc s).1.selectedNodeIds = []
            ∧ (handleKeyDown key foc s).1.selectionMenuPos = none
            ∧ (handleKeyDown key foc s).1.activeNodeId = none))
    ∧ (∀ (foc : Bool) (s : GraphState),
        (handleKeyDown "Escape" foc s).2 = []
        ∧ (handleKeyDown "Escape" foc s).1.selectedNodeIds = []
        ∧ (handleKeyDown "Escape" foc s).1.activeNodeId = none
        ∧ (handleKeyDown "Escape" foc s).1.selectionMenuPos = none
        ∧ (handleKeyDown "Escape" foc s).1.linkSourceId = none
        ∧ (handleKeyDown "Escape" foc s).1.mode = ToolMode.DEFAULT) := by
  constructor
  · intro key foc s hsel hkey
    constructor
    · intro hfoc
      unfold handleKeyDown
      rw [if_pos ⟨List.length_pos.mpr hsel, hkey⟩, if_pos (by rw [hfoc])]
    · intro hfoc
      rcases hkey with h | h <;> subst h <;>
        · unfold handleKeyDown
          rw [if_pos ⟨List.length_pos.mpr hsel, by first | exact Or.inl rfl | exact Or.inr rfl⟩,
            if_neg (by rw [hfoc]; exact Bool.false_ne_true),
            if_neg (by decide)]
          exact ⟨rfl, rfl, rfl, rfl⟩
  · intro foc s
    unfold handleKeyDown
    rw [if_neg, if_pos rfl]
    · exact ⟨rfl, rfl, rfl, rfl, rfl, rfl⟩
    · rintro ⟨-, h | h⟩ <;> exact absurd h (by decide)

/-- Witness for the amended key-handling theorem: both branches applied
at a concrete state. -/
theorem key_handling_guard_scope_witness :
    handleKeyDown "Delete" true focusState = (focusState, [])
    ∧ (handleKeyDown "Delete" false focusState).2 = [Emit.deleteNotes ["a"]]
    ∧ (handleKeyDown "Escape" false focusState).1.mode = ToolMode.DEFAULT :=
  ⟨(key_handling_guard_scope.1 "Delete" true focusState (by decide) (Or.inl rfl)).1 rfl,
   ((key_handling_guard_scope.1 "Delete" false focusState (by decide) (Or.inl rfl)).2 rfl).1,
   (key_handling_guard_scope.2 false focusState).2.2.2.2.2⟩

/-! Drag commit on pointer-up. -/

theorem buildDragUpdates_eq (notes : List Note) (ov : List (String × Point)) :
    buildDragUpdates notes ov
      = ov.filterMap (fun p => (notes.find? (fun n => n.id = p.1)).map
          (fun n => { n with x := p.2.x, y := p.2.y })) := by
  have haux : ∀ (l : List (String × Point)) (acc : List Note),
      (l.foldl (fun acc p =>
        match notes.find? (fun n => n.id = p.1) with
        | some note => acc ++ [{ note with x := p.2.x, y := p.2.y }]
        | none => acc) acc)
      = acc ++ l.filterMap (fun p => (notes.find? (fun n => n.id = p.1)).map
          (fun n => { n with x := p.2.x, y := p.2.y })) := by
    intro l
    induction l with
    | nil => intro acc; simp
    | cons p rest ih =>
        intro acc
        simp only [List.foldl_cons, List.filterMap_cons]
        cases hf : notes.find? (fun n => n.id = p.1) with
        | none => simp [hf, ih]
        | some n => simp [hf, ih]
  exact haux ov []

theorem dragUpBranch_commit (notes : List Note) (s : GraphState)
    (hne : s.activeDragIds ≠ []) (hup : buildDragUpdates notes s.dragOverrides ≠ []) :
    dragUpBranch notes s
      = ({ s with dragCommitRef := true, dragStartOffsets := [] },
         [Emit.updateNotes (buildDragUpdates notes s.dragOverrides)]) := by
  unfold dragUpBranch
  dsimp only
  rw [if_pos (List.length_pos.mpr hne), if_pos (List.length_pos.mpr hup)]

theorem dragUpBranch_noUpdates (notes : List Note) (s : GraphState)
    (hne : s.activeDragIds ≠ []) (hup : buildDragUpdates notes s.dragOverrides = []) :
    dragUpBranch notes s
      = ({ s with activeDragIds := [], dragOverrides := [], dragStartOffsets := [] }, []) := by
  unfold dragUpBranch
  dsimp only
  rw [if_pos (List.length_pos.mpr hne), if_neg (by rw [hup]; simp)]

theorem dragUpBranch_idle (notes : List Note) (s : GraphState)
    (hid : s.activeDragIds = []) : dragUpBranch notes s = (s, []) := by
  unfold dragUpBranch
  rw [if_neg (by rw [hid]; simp)]

/-- `selectUpBranch` never touches the drag-session state. -/
theorem selectUpBranch_drag_fields (ctx : DomCtx) (notes : List Note) (e : PtrEvent)
    (s : GraphState) :
    (selectUpBranch ctx notes e s).activeDragIds = s.activeDragIds
    ∧ (selectUpBranch ctx notes e s).dragOverrides = s.dragOverrides
    ∧ (selectUpBranch ctx notes e s).dragCommitRef = s.dragCommitRef
    ∧ (selectUpBranch ctx notes e s).dragStartOffsets = s.dragStartOffsets := by
  unfold selectUpBranch
  split
  · split
    · exact ⟨rfl, rfl, rfl, rfl⟩
    · dsimp only
      split <;> (try split) <;> (try split) <;> exact ⟨rfl, rfl, rfl, rfl⟩
  · exact ⟨rfl, rfl, rfl, rfl⟩

/-- `handlePointerUp` is the drag-commit branch followed by the
rubber-band branch on the intermediate state. -/
theorem handlePointerUp_eq (ctx : DomCtx) (notes : List Note) (e : PtrEvent)
    (s : GraphState) :
    handlePointerUp ctx notes e s
      = (selectUpBranch ctx notes e (dragUpBranch notes { s with isDraggingRef := false }).1,
         (dragUpBranch notes { s with isDraggingRef := false }).2) := rfl

/-- Claim C2: on pointer-up with a non-empty drag session, exactly one
batch update call is emitted, containing for each overridden identifier
whose note is present in the notes list that note snapshot with only its
x and y replaced by the final override (the `filterMap`
characterization); when no overridden identifier matches a present note
the batch is empty, no call is made and the session is cleared
immediately; with zero captured entities nothing is emitted and the
session stays empty. -/
theorem pointer_up_commit_emission :
    (∀ (ctx : DomCtx) (notes : List Note) (e : PtrEvent) (s : GraphState),
        s.activeDragIds ≠ [] →
        (buildDragUpdates notes s.dragOverrides ≠ [] →
          (handlePointerUp ctx notes e s).2
            = [Emit.updateNotes (buildDragUpdates notes s.dragOverrides)])
        ∧ (buildDragUpdates notes s.dragOverrides = [] →
          (handlePointerUp ctx notes e s).2 = []
          ∧ (handlePointerUp ctx notes e s).1.activeDragIds = []
          ∧ (handlePointerUp ctx notes e s).1.dragOverrides = []))
    ∧ (∀ (notes : List Note) (ov : List (String × Point)),
        buildDragUpdates notes ov
          = ov.filterMap (fun p => (notes.find? (fun n => n.id = p.1)).map
              (fun n => { n with x := p.2.x, y := p.2.y })))
    ∧ (∀ (ctx : DomCtx) (notes : List Note) (e : PtrEvent) (s : GraphState),
        s.activeDragIds = [] → s.dragOverrides = [] →
        (handlePointerUp ctx notes e s).2 = []
        ∧ (handlePointerUp ctx notes e s).1.activeDragIds = []
        ∧ (handlePointerUp ctx notes e s).1.dragOverrides = []) := by
  refine ⟨?_, buildDragUpdates_eq, ?_⟩
  · intro ctx notes e s hne
    constructor
    · intro hup
      rw [handlePointerUp_eq, dragUpBranch_commit notes { s with isDraggingRef := false } hne hup]
    · intro hup
      rw [handlePointerUp_eq, dragUpBranch_noUpdates notes { s with isDraggingRef := false } hne hup]
      refine ⟨rfl, ?_, ?_⟩
      · rw [(selectUpBranch_drag_fields ctx notes e _).1]
      · rw [(selectUpBranch_drag_fields ctx notes e _).2.1]
  · intro ctx notes e s hid hov
    rw [handlePointerUp_eq, dragUpBranch_idle notes { s with isDraggingRef := false } hid]
    refine ⟨rfl, ?_, ?_⟩
    · rw [(selectUpBranch_drag_fields ctx notes e _).1]; exact hid
    · rw [(selectUpBranch_drag_fields ctx notes e _).2.1]; exact hov

def noteD : Note := ⟨"d", "", "", [], false, 0, 0, 0, 0, []⟩

def dragState : GraphState :=
  { exState with activeDragIds := ["d"], dragOverrides := [("d", ⟨3, 4⟩)],
                 dragStartOffsets := [("d", ⟨1, 1⟩)] }

/-- Witness for the commit-emission theorem: a one-node drag session
emits exactly the single-batch update with only the position replaced,
and an idle session emits nothing. -/
theorem pointer_up_commit_emission_witness :
    (handlePointerUp ctx600 [noteD] evUp dragState).2
        = [Emit.updateNotes (buildDragUpdates [noteD] dragState.dragOverrides)]
    ∧ (handlePointerUp ctx600 [noteD] evUp exState).2 = [] :=
  ⟨(pointer_up_commit_emission.1 ctx600 [noteD] evUp dragState (by decide)).1
      (by simp [buildDragUpdates, noteD, dragState, exState]),
   (pointer_up_commit_emission.2.2 ctx600 [noteD] evUp exState rfl rfl).1⟩

/-- Claim C1: a pointer-up that commits a non-empty drag session leaves
the drag-override map and the active-drag-id set unchanged and raises
the commit flag, so every dragged node keeps rendering at its last
live-override coordinate (the dynamic layer still renders it there and
the static layer does not render it at all); when the external notes
list is next observed to change, the reconciliation step clears the
override map and the active-drag set in the same single step. -/
theorem commit_keeps_overrides_until_refresh :
    ∀ (ctx : DomCtx) (notes : List Note) (e : PtrEvent) (s : GraphState),
      s.activeDragIds ≠ [] →
      buildDragUpdates notes s.dragOverrides ≠ [] →
      ((handlePointerUp ctx notes e s).1.dragOverrides = s.dragOverrides
       ∧ (handlePointerUp ctx notes e s).1.activeDragIds = s.activeDragIds
       ∧ (handlePointerUp ctx notes e s).1.dragCommitRef = true)
      ∧ (∀ n ∈ notes, ∀ p, mapGet s.dragOverrides n.id = some p →
          (n.id, p) ∈ dynamicNodesRendered notes (handlePointerUp ctx notes e s).1.dragOverrides)
      ∧ (∀ id, id ∈ (handlePointerUp ctx notes e s).1.activeDragIds →
          ∀ q, (id, q) ∉ staticNodesRendered notes (handlePointerUp ctx notes e s).1.activeDragIds)
      ∧ (reconcileNotes (handlePointerUp ctx notes e s).1).dragOverrides = []
      ∧ (reconcileNotes (handlePointerUp ctx notes e s).1).activeDragIds = []
      ∧ (reconcileNotes (handlePointerUp ctx notes e s).1).dragCommitRef = false := by
  intro ctx notes e s hne hup
  have h1 : (handlePointerUp ctx notes e s).1.dragOverrides = s.dragOverrides := by
    rw [handlePointerUp_eq, dragUpBranch_commit notes { s with isDraggingRef := false } hne hup]
    rw [(selectUpBranch_drag_fields ctx notes e _).2.1]
  have h2 : (handlePointerUp ctx notes e s).1.activeDragIds = s.activeDragIds := by
    rw [handlePointerUp_eq, dragUpBranch_commit notes { s with isDraggingRef := false } hne hup]
    rw [(selectUpBranch_drag_fields ctx notes e _).1]
  have h3 : (handlePointerUp ctx notes e s).1.dragCommitRef = true := by
    rw [handlePointerUp_eq, dragUpBranch_commit notes { s with isDraggingRef := false } hne hup]
    rw [(selectUpBranch_drag_fields ctx notes e _).2.2.1]
  refine ⟨⟨h1, h2, h3⟩, ?_, ?_, ?_, ?_, ?_⟩
  · intro n hn p hov
    rw [h1]
    unfold dynamicNodesRendered
    have hovne : ¬ s.dragOverrides.length = 0 := by
      intro h0
      exact hup (by rw [List.length_eq_zero.mp h0]; rfl)
    rw [if_neg hovne]
    exact List.mem_filterMap.mpr ⟨n, hn, by rw [hov]; rfl⟩
  · intro id hid q hmem
    unfold staticNodesRendered at hmem
    rcases List.mem_filterMap.mp hmem with ⟨n, _, hsome⟩
    split at hsome
    · exact Option.noConfusion hsome
    · rename_i hnot
      have hnid : n.id = id := congrArg Prod.fst (Option.some.inj hsome)
      exact hnot (hnid ▸ hid)
  · unfold reconcileNotes
    rw [if_pos h3]
  · unfold reconcileNotes
    rw [if_pos h3]
  · unfold reconcileNotes
    rw [if_pos h3]

/-- Witness for the two-phase commit theorem at a one-node drag. -/
theorem commit_keeps_overrides_until_refresh_witness :
    (handlePointerUp ctx600 [noteD] evUp dragState).1.dragOverrides = dragState.dragOverrides
    ∧ (handlePointerUp ctx600 [noteD] evUp dragState).1.activeDragIds = dragState.activeDragIds
    ∧ (reconcileNotes (handlePointerUp ctx600 [noteD] evUp dragState).1).dragOverrides = [] := by
  have h := commit_keeps_overrides_until_refresh ctx600 [noteD] evUp dragState (by decide)
    (by simp [buildDragUpdates, noteD, dragState, exState])
  exact ⟨h.1.1, h.1.2.1, h.2.2.2.1⟩

/-! Connect-mode link toggling. -/

/-- The merge keeps every note's identifier (an update is only applied
at a matching id). -/
theorem mergeEntry_id (us : List Note) (n : Note) : (mergeEntry us n).id = n.id := by
  unfold mergeEntry
  cases hf : us.find? (fun u => u.id = n.id) with
  | none => rfl
  | some u =>
      have hu := List.find?_some hf
      simp only [decide_eq_true_eq] at hu
      exact hu

theorem find?_applyUpdates (prev us : List Note) (i : String) (m : Note)
    (hf : prev.find? (fun n => n.id = i) = some m) :
    (applyUpdates prev us).find? (fun n => n.id = i) = some (mergeEntry us m) := by
  unfold applyUpdates
  rw [List.find?_map]
  have hp : ((fun n => decide (n.id = i)) ∘ mergeEntry us) = fun n => decide (n.id = i) := by
    funext n
    simp only [Function.comp_apply]
    rw [mergeEntry_id]
  rw [hp, hf]
  rfl

/-- The armed-and-distinct click of the Connect branch: toggle the
clicked id in the source's adjacency, emit the single-entity update and
clear the link source. -/
theorem nodeDown_connect_toggle (notes : List Note) (e : PtrEvent) (note : Note)
    (s : GraphState) (A : Note)
    (hmode : s.mode = ToolMode.CONNECT) (hsrc : s.linkSourceId = some A.id)
    (hne : A.id ≠ note.id) (hfind : notes.find? (fun n => n.id = A.id) = some A) :
    handleNodePointerDown notes e note s
      = ({ s with wasNodeSelectedRef := decide (note.id ∈ s.selectedNodeIds)
                  linkSourceId := none },
         [Emit.updateNotes [{ A with links := linkToggle A.links note.id }]]) := by
  unfold handleNodePointerDown
  rw [if_pos hmode, hsrc]
  dsimp only
  rw [if_pos hne, hfind]

/-- The unarmed click of the Connect branch: arm the clicked node. -/
theorem nodeDown_connect_arm (notes : List Note) (e : PtrEvent) (note : Note)
    (s : GraphState)
    (hmode : s.mode = ToolMode.CONNECT) (hsrc : s.linkSourceId = none) :
    handleNodePointerDown notes e note s
      = ({ s with wasNodeSelectedRef := decide (note.id ∈ s.selectedNodeIds)
                  linkSourceId := some note.id }, []) := by
  unfold handleNodePointerDown
  rw [if_pos hmode, hsrc]

/-- Clicking the armed node itself: no emission, the link source stays
armed at that node. -/
theorem nodeDown_connect_same (notes : List Note) (e : PtrEvent) (note : Note)
    (s : GraphState)
    (hmode : s.mode = ToolMode.CONNECT) (hsrc : s.linkSourceId = some note.id) :
    handleNodePointerDown notes e note s
      = ({ s with wasNodeSelectedRef := decide (note.id ∈ s.selectedNodeIds)
                  linkSourceId := some note.id }, []) := by
  unfold handleNodePointerDown
  rw [if_pos hmode, hsrc]
  dsimp only
  rw [if_neg (by simp)]

/-- Claim C4: in Connect mode with link-source A armed, pointer-down on
a distinct node B removes B from A's adjacency when present and appends
it otherwise, emits a single-entity update for A only and clears the
link source; the same A-then-B sequence performed twice starting from
empty adjacency restores A's adjacency to empty; and pointer-down on A
itself performs no mutation and leaves the link source armed. -/
theorem connect_mode_link_toggle :
    (∀ (notes : List Note) (e : PtrEvent) (note : Note) (s : GraphState) (A : Note),
        s.mode = ToolMode.CONNECT → s.linkSourceId = some A.id → A.id ≠ note.id →
        notes.find? (fun n => n.id = A.id) = some A →
        (handleNodePointerDown notes e note s).2
          = [Emit.updateNotes [{ A with links := linkToggle A.links note.id }]]
        ∧ (handleNodePointerDown notes e note s).1.linkSourceId = none
        ∧ (note.id ∈ A.links →
            linkToggle A.links note.id = A.links.filter (fun l => l ≠ note.id))
        ∧ (note.id ∉ A.links → linkToggle A.links note.id = A.links ++ [note.id]))
    ∧ (∀ (notes : List Note) (e : PtrEvent) (note : Note) (s : GraphState),
        s.mode = ToolMode.CONNECT → s.linkSourceId = some note.id →
        (handleNodePointerDown notes e note s).2 = []
        ∧ (handleNodePointerDown notes e note s).1.linkSourceId = some note.id
        ∧ (handleNodePointerDown notes e note s).1.selectedNodeIds = s.selectedNodeIds
        ∧ (handleNodePointerDown notes e note s).1.activeDragIds = s.activeDragIds
        ∧ (handleNodePointerDown notes e note s).1.dragOverrides = s.dragOverrides
        ∧ (handleNodePointerDown notes e note s).1.mode = s.mode)
    ∧ (∀ (notes : List Note) (e1 e2 e3 : PtrEvent) (A B : Note) (s : GraphState),
        s.mode = ToolMode.CONNECT → s.linkSourceId = some A.id → A.id ≠ B.id →
        notes.find? (fun n => n.id = A.id) = some A → A.links = [] →
        (handleNodePointerDown notes e1 B s).2
            = [Emit.updateNotes [{ A with links := [B.id] }]]
        ∧ (handleNodePointerDown (applyUpdates notes [{ A with links := [B.id] }]) e3 B
              ((handleNodePointerDown (applyUpdates notes [{ A with links := [B.id] }]) e2 A
                  (handleNodePointerDown notes e1 B s).1).1)).2
            = [Emit.updateNotes [A]]) := by
  refine ⟨?_, ?_, ?_⟩
  · intro notes e note s A hmode hsrc hne hfind
    rw [nodeDown_connect_toggle notes e note s A hmode hsrc hne hfind]
    refine ⟨rfl, rfl, ?_, ?_⟩
    · intro hmem
      unfold linkToggle
      rw [if_pos hmem]
    · intro hmem
      unfold linkToggle
      rw [if_neg hmem]
  · intro notes e note s hmode hsrc
    rw [nodeDown_connect_same notes e note s hmode hsrc]
    exact ⟨rfl, rfl, rfl, rfl, rfl, rfl⟩
  · intro notes e1 e2 e3 A B s hmode hsrc hne hfind hA
    have hfirst : { A with links := linkToggle A.links B.id } = { A with links := [B.id] } := by
      rw [hA]
      unfold linkToggle
      rw [if_neg (List.not_mem_nil B.id)]
      rfl
    have h1 := nodeDown_connect_toggle notes e1 B s A hmode hsrc hne hfind
    constructor
    · rw [h1, hfirst]
    · have hmode1 : (handleNodePointerDown notes e1 B s).1.mode = ToolMode.CONNECT := by
        rw [h1]; exact hmode
      have hsrc1 : (handleNodePointerDown notes e1 B s).1.linkSourceId = none := by
        rw [h1]
      have h2 := nodeDown_connect_arm (applyUpdates notes [{ A with links := [B.id] }]) e2 A
        (handleNodePointerDown notes e1 B s).1 hmode1 hsrc1
      have hmode2 : ((handleNodePointerDown (applyUpdates notes [{ A with links := [B.id] }])
          e2 A (handleNodePointerDown notes e1 B s).1).1).mode = ToolMode.CONNECT := by
        rw [h2]; exact hmode1
      have hsrc2 : ((handleNodePointerDown (applyUpdates notes [{ A with links := [B.id] }])
          e2 A (handleNodePointerDown notes e1 B s).1).1).linkSourceId = some A.id := by
        rw [h2]
      have hmerge : mergeEntry [{ A with links := [B.id] }] A = { A with links := [B.id] } := by
        unfold mergeEntry
        rw [List.find?_cons_of_pos _ (by simp)]
      have hfind2 : (applyUpdates notes [{ A with links := [B.id] }]).find?
          (fun n => n.id = A.id) = some { A with links := [B.id] } := by
        rw [find?_applyUpdates notes [{ A with links := [B.id] }] A.id A hfind, hmerge]
      have h3 := nodeDown_connect_toggle (applyUpdates notes [{ A with links := [B.id] }]) e3 B
        ((handleNodePointerDown (applyUpdates notes [{ A with links := [B.id] }]) e2 A
            (handleNodePointerDown notes e1 B s).1).1)
        { A with links := [B.id] } hmode2 hsrc2 hne hfind2
      rw [h3]
      dsimp only
      simp only [linkToggle, List.mem_singleton, if_pos, List.filter_cons, List.filter_nil,
        decide_not, decide_eq_true_eq, reduceIte]
      simp only [decide_True, Bool.not_true, Bool.false_eq_true, if_false]
      rw [← hA]

/-- Witness for the link-toggle theorem: a two-note universe where A is
armed and B is clicked, twice. -/
theorem connect_mode_link_toggle_witness :
    (handleNodePointerDown [noteD, noteC] evUp noteC
        { exState with mode := ToolMode.CONNECT, linkSourceId := some "d" }).2
      = [Emit.updateNotes [{ noteD with links := linkToggle noteD.links "c" }]] :=
  (connect_mode_link_toggle.1 [noteD, noteC] evUp noteC
    { exState with mode := ToolMode.CONNECT, linkSourceId := some "d" } noteD
    rfl rfl (by decide) (by decide)).1

/-! Drag-session key invariants. -/

/-- The drag-initiation fold adds each found id to the offsets map, the
override map and the drag set in lockstep, so key-set equality of the
three is preserved. -/
theorem dragInit_keys (notes : List Note) (coords : Point) (ids : List String)
    (acc : List (String × Point) × List (String × Point) × List String)
    (hinv : (∀ id, id ∈ mapKeys acc.1 ↔ id ∈ acc.2.2)
          ∧ (∀ id, id ∈ mapKeys acc.2.1 ↔ id ∈ acc.2.2)) :
    (∀ id, id ∈ mapKeys (ids.foldl (fun acc id =>
        match notes.find? (fun n => n.id = id) with
        | some n =>
            (mapSet acc.1 id ⟨coords.x - n.x, coords.y - n.y⟩,
             mapSet acc.2.1 id ⟨n.x, n.y⟩,
             setAdd acc.2.2 id)
        | none => acc) acc).1
      ↔ id ∈ (ids.foldl (fun acc id =>
        match notes.find? (fun n => n.id = id) with
        | some n =>
            (mapSet acc.1 id ⟨coords.x - n.x, coords.y - n.y⟩,
             mapSet acc.2.1 id ⟨n.x, n.y⟩,
             setAdd acc.2.2 id)
        | none => acc) acc).2.2)
    ∧ (∀ id, id ∈ mapKeys (ids.foldl (fun acc id =>
        match notes.find? (fun n => n.id = id) with
        | some n =>
            (mapSet acc.1 id ⟨coords.x - n.x, coords.y - n.y⟩,
             mapSet acc.2.1 id ⟨n.x, n.y⟩,
             setAdd acc.2.2 id)
        | none => acc) acc).2.1
      ↔ id ∈ (ids.foldl (fun acc id =>
        match notes.find? (fun n => n.id = id) with
        | some n =>
            (mapSet acc.1 id ⟨coords.x - n.x, coords.y - n.y⟩,
             mapSet acc.2.1 id ⟨n.x, n.y⟩,
             setAdd acc.2.2 id)
        | none => acc) acc).2.2) := by
  induction ids generalizing acc with
  | nil => exact hinv
  | cons a l ih =>
      simp only [List.foldl_cons]
      cases hf : notes.find? (fun n => n.id = a) with
      | none =>
          exact ih acc hinv
      | some n =>
          refine ih _ ⟨?_, ?_⟩
          · intro id
            rw [mem_mapKeys_mapSet, mem_setAdd, hinv.1 id]
          · intro id
            rw [mem_mapKeys_mapSet, mem_setAdd, hinv.2 id]

/-- The drag-initiation branch of `handleNodePointerDown` spelled out. -/
theorem nodeDown_drag_init_eq (notes : List Note) (e : PtrEvent) (note : Note)
    (s : GraphState)
    (hmode : ¬ s.mode = ToolMode.CONNECT) (hlock : ¬ s.isLayoutLocked = true)
    (hpan : s.mode ≠ ToolMode.PAN) (hsel : s.mode ≠ ToolMode.SELECT) :
    handleNodePointerDown notes e note s
      = (let newSelection :=
           if note.id ∈ s.selectedNodeIds then s.selectedNodeIds
           else if ¬ e.shiftKey then [note.id] else setAdd s.selectedNodeIds note.id
         let nodesToDrag := if note.id ∈ newSelection then newSelection else [note.id]
         let res := nodesToDrag.foldl (fun acc id =>
           match notes.find? (fun n => n.id = id) with
           | some n =>
               (mapSet acc.1 id ⟨e.canvas.x - n.x, e.canvas.y - n.y⟩,
                mapSet acc.2.1 id ⟨n.x, n.y⟩,
                setAdd acc.2.2 id)
           | none => acc) ([], [], [])
         ({ s with wasNodeSelectedRef := decide (note.id ∈ s.selectedNodeIds)
                   selectedNodeIds := newSelection
                   selectionMenuPos := none
                   activeNodeId := none
                   dragStartOffsets := res.1
                   dragOverrides := res.2.1
                   activeDragIds := res.2.2
                   pointerStartPos := ⟨e.clientX, e.clientY⟩
                   isDraggingRef := true }, [])) := by
  unfold handleNodePointerDown
  rw [if_neg hmode, if_pos ⟨hlock, hpan, hsel⟩]

/-- One unfolding step of the override-update fold of the drag move. -/
theorem moveOverrides_cons (offsets : List (String × Point)) (coords : Point)
    (a : String) (l : List String) (m : List (String × Point)) :
    moveOverrides offsets coords (a :: l) m
      = moveOverrides offsets coords l
          (match mapGet offsets a with
           | some off => mapSet m a ⟨coords.x - off.x, coords.y - off.y⟩
           | none => m) := rfl

/-- The drag-move fold never adds or removes override keys when every
processed id already has an override. -/
theorem moveOverrides_keys (offsets : List (String × Point)) (coords : Point)
    (ids : List String) (m : List (String × Point))
    (hsub : ∀ id ∈ ids, id ∈ mapKeys m) :
    ∀ k, k ∈ mapKeys (moveOverrides offsets coords ids m) ↔ k ∈ mapKeys m := by
  induction ids generalizing m with
  | nil => intro k; rfl
  | cons a l ih =>
      intro k
      rw [moveOverrides_cons]
      cases hf : mapGet offsets a with
      | none =>
          exact ih m (fun id hid => hsub id (List.mem_cons_of_mem a hid)) k
      | some off =>
          dsimp only
          have hak : a ∈ mapKeys m := hsub a (List.mem_cons_self a l)
          have hkeys : ∀ k2, k2 ∈ mapKeys (mapSet m a ⟨coords.x - off.x, coords.y - off.y⟩)
              ↔ k2 ∈ mapKeys m := by
            intro k2
            rw [mem_mapKeys_mapSet]
            exact ⟨fun h => h.elim (fun h2 => h2) (fun h2 => h2 ▸ hak), Or.inl⟩
          rw [ih _ (fun id hid => (hkeys id).mpr (hsub id (List.mem_cons_of_mem a hid))) k,
            hkeys k]

/-- The drag-move fold leaves untouched every id without a start offset. -/
theorem moveOverrides_get_no_offset (offsets : List (String × Point)) (coords : Point)
    (ids : List String) (m : List (String × Point)) (k : String)
    (hk : ¬ k ∈ mapKeys offsets) :
    mapGet (moveOverrides offsets coords ids m) k = mapGet m k := by
  induction ids generalizing m with
  | nil => rfl
  | cons a l ih =>
      rw [moveOverrides_cons]
      cases hf : mapGet offsets a with
      | none =>
          exact ih m
      | some off =>
          dsimp only
          rw [ih (mapSet m a ⟨coords.x - off.x, coords.y - off.y⟩)]
          apply mapGet_mapSet_ne
          intro he
          apply hk
          rw [he]
          rw [← mapGet_isSome_iff_mem_mapKeys, hf]
          rfl

/-- The drag branch of `handlePointerMove` spelled out. -/
theorem pointerMove_drag_eq (ctx : DomCtx) (e : PtrEvent) (s : GraphState)
    (hdrag : s.isDraggingRef = true) (hmode : s.mode = ToolMode.DEFAULT)
    (hlen : s.activeDragIds ≠ []) (hlock : s.isLayoutLocked = false) :
    handlePointerMove ctx e s
      = (if s.activeDragIds.any (fun id => (mapGet s.dragStartOffsets id).isSome) then
          { s with dragOverrides :=
              moveOverrides s.dragStartOffsets e.canvas s.activeDragIds s.dragOverrides }
         else s) := by
  unfold handlePointerMove
  rw [if_neg (by simp [hdrag]), if_neg (by simp [hmode]),
    if_neg (by simp [hmode, hlen, List.length_eq_zero]),
    if_pos ⟨List.length_pos.mpr hlen, by simp [hlock]⟩]

/-- Claim C7: from drag initiation until pointer-up, the identifiers
holding a live override, those holding a start offset, and the
active-drag-id set coincide: initiation populates all three over the
same identifiers, and a pointer-move keeps the drag set and the offsets
untouched, preserves the override key set, and changes override values
only for identifiers holding a start offset. -/
theorem drag_session_key_invariant :
    (∀ (notes : List Note) (e : PtrEvent) (note : Note) (s : GraphState),
        ¬ s.mode = ToolMode.CONNECT → ¬ s.isLayoutLocked = true →
        s.mode ≠ ToolMode.PAN → s.mode ≠ ToolMode.SELECT →
        (∀ id, id ∈ mapKeys (handleNodePointerDown notes e note s).1.dragOverrides
            ↔ id ∈ (handleNodePointerDown notes e note s).1.activeDragIds)
        ∧ (∀ id, id ∈ mapKeys (handleNodePointerDown notes e note s).1.dragStartOffsets
            ↔ id ∈ (handleNodePointerDown notes e note s).1.activeDragIds))
    ∧ (∀ (ctx : DomCtx) (e : PtrEvent) (s : GraphState),
        s.isDraggingRef = true → s.mode = ToolMode.DEFAULT →
        s.activeDragIds ≠ [] → s.isLayoutLocked = false →
        (∀ id ∈ s.activeDragIds, id ∈ mapKeys s.dragOverrides) →
        (handlePointerMove ctx e s).activeDragIds = s.activeDragIds
        ∧ (handlePointerMove ctx e s).dragStartOffsets = s.dragStartOffsets
        ∧ (∀ k, k ∈ mapKeys (handlePointerMove ctx e s).dragOverrides
            ↔ k ∈ mapKeys s.dragOverrides)
        ∧ (∀ k, ¬ k ∈ mapKeys s.dragStartOffsets →
            mapGet (handlePointerMove ctx e s).dragOverrides k
              = mapGet s.dragOverrides k)) := by
  constructor
  · intro notes e note s hmode hlock hpan hsel
    rw [nodeDown_drag_init_eq notes e note s hmode hlock hpan hsel]
    dsimp only
    refine ⟨(dragInit_keys notes e.canvas _ ([], [], [])
        ⟨fun id => by simp [mapKeys], fun id => by simp [mapKeys]⟩).2,
      (dragInit_keys notes e.canvas _ ([], [], [])
        ⟨fun id => by simp [mapKeys], fun id => by simp [mapKeys]⟩).1⟩
  · intro ctx e s hdrag hmode hlen hlock hsub
    rw [pointerMove_drag_eq ctx e s hdrag hmode hlen hlock]
    split
    · exact ⟨rfl, rfl, moveOverrides_keys s.dragStartOffsets e.canvas s.activeDragIds
          s.dragOverrides hsub,
        fun k hk => moveOverrides_get_no_offset s.dragStartOffsets e.canvas s.activeDragIds
          s.dragOverrides k hk⟩
    · exact ⟨rfl, rfl, fun k => Iff.rfl, fun k _ => rfl⟩

def dragMoveState : GraphState := { dragState with isDraggingRef := true }

/-- Witness for the drag-session invariant: one-node initiation and one
concrete move step. -/
theorem drag_session_key_invariant_witness :
    ("d" ∈ mapKeys (handleNodePointerDown [noteD] evUp noteD exState).1.dragOverrides
      ↔ "d" ∈ (handleNodePointerDown [noteD] evUp noteD exState).1.activeDragIds)
    ∧ (handlePointerMove ctx600 ev10 dragMoveState).activeDragIds
        = dragMoveState.activeDragIds :=
  ⟨(drag_session_key_invariant.1 [noteD] evUp noteD exState (by decide) (by decide)
      (by decide) (by decide)).1 "d",
   (drag_session_key_invariant.2 ctx600 ev10 dragMoveState rfl rfl (by decide) rfl
      (by decide)).1⟩

/-- Claim C8: a pointer-up over a node within the 5-device-pixel click
threshold (expressed by the squared distance being below 25), outside
Connect mode, for a node that was already part of a size>1 selection
before the gesture: with the additive modifier the node is removed from
the selection; otherwise the multi-selection stays intact and the bulk
menu opens anchored at the node's screen position. -/
theorem click_on_multi_selection :
    ∀ (ctx : DomCtx) (notes : List Note) (e : PtrEvent) (noteId : String)
      (s : GraphState) (note : Note),
      (e.clientX - s.pointerStartPos.x) * (e.clientX - s.pointerStartPos.x)
        + (e.clientY - s.pointerStartPos.y) * (e.clientY - s.pointerStartPos.y) < 25 →
      s.mode ≠ ToolMode.CONNECT →
      s.wasNodeSelectedRef = true →
      noteId ∈ s.selectedNodeIds →
      s.selectedNodeIds.length > 1 →
      notes.find? (fun n => n.id = noteId) = some note →
      (e.shiftKey = true →
        (handleNodePointerUp ctx notes e noteId s).selectedNodeIds
          = setDel s.selectedNodeIds noteId)
      ∧ (e.shiftKey = false →
        (handleNodePointerUp ctx notes e noteId s).selectedNodeIds = s.selectedNodeIds
        ∧ (handleNodePointerUp ctx notes e noteId s).selectionMenuPos
            = some (toScreenCoords ctx s.viewBox note.x note.y)) := by
  intro ctx notes e noteId s note hdist hmode hwas hmem hlen hfind
  unfold handleNodePointerUp
  rw [if_pos ⟨hdist, hmode⟩]
  dsimp only
  rw [if_pos ⟨hlen, hmem⟩, hfind]
  constructor
  · intro hsh
    rw [if_pos ⟨hwas, hmem, hsh⟩]
  · intro hsh
    rw [if_neg (fun hcon => absurd hcon.2.2 (by rw [hsh]; exact Bool.false_ne_true))]
    exact ⟨rfl, rfl⟩

def multiSelState : GraphState :=
  { exState with selectedNodeIds := ["d", "c"], wasNodeSelectedRef := true }

/-- Witness for the multi-selection click theorem: a no-modifier click
on note c of a two-node selection keeps the selection and opens the menu
at c's screen position. -/
theorem click_on_multi_selection_witness :
    (handleNodePointerUp ctx600 [noteD, noteC] evUp "c" multiSelState).selectedNodeIds
        = multiSelState.selectedNodeIds
    ∧ (handleNodePointerUp ctx600 [noteD, noteC] evUp "c" multiSelState).selectionMenuPos
        = some (toScreenCoords ctx600 multiSelState.viewBox noteC.x noteC.y) :=
  (click_on_multi_selection ctx600 [noteD, noteC] evUp "c" multiSelState noteC
    (by norm_num [evUp, multiSelState, exState]) (by decide) rfl (by decide) (by decide)
    (by decide)).2 rfl

/-! Edge deduplication across the two connection layers. -/

/-- The directed link occurrences scanned by the connection layers, in
scan order: every (source, targetId) with targetId in source's links. -/
def occs (notes : List Note) : List (Note × String) :=
  notes.flatMap (fun s => s.links.map (fun t => (s, t)))

/-- The number of rendered edge elements whose endpoint ids form the
unordered pair (a, b). -/
def countPair (els : List EdgeEl) (a b : String) : Nat :=
  (els.filter (fun el =>
    decide ((el.sId = a ∧ el.tId = b) ∨ (el.sId = b ∧ el.tId = a)))).length

/-- A directed occurrence records the unordered pair (A, B). -/
def pairOcc (A B : Note) (o : Note × String) : Prop :=
  (o.1.id = A.id ∧ o.2 = B.id) ∨ (o.1.id = B.id ∧ o.2 = A.id)

instance pairOccDec (A B : Note) (o : Note × String) : Decidable (pairOcc A B o) := by
  unfold pairOcc
  infer_instance

theorem foldl_pairs {α β γ : Type} (f : γ → α → β → γ) (g : α → List β) (l : List α) :
    ∀ init : γ,
      l.foldl (fun acc a => (g a).foldl (fun acc2 b => f acc2 a b) acc) init
        = (l.flatMap (fun a => (g a).map (fun b => (a, b)))).foldl
            (fun acc p => f acc p.1 p.2) init := by
  induction l with
  | nil => intro init; rfl
  | cons a l ih =>
      intro init
      rw [List.foldl_cons, List.flatMap_cons, List.foldl_append, ih, List.foldl_map]

theorem staticConnections_eq (notes : List Note) (dragIds : List String) :
    staticConnections notes dragIds
      = ((occs notes).foldl (fun acc p => staticConnStep notes dragIds p.1 acc p.2)
          ([], [])).2 :=
  congrArg Prod.snd
    (foldl_pairs (fun acc s t => staticConnStep notes dragIds s acc t)
      (fun s => s.links) notes ([], []))

theorem dynamicConnections_eq (notes : List Note) (ov : List (String × Point))
    (dragIds : List String) (hne : dragIds ≠ []) :
    dynamicConnections notes ov dragIds
      = ((occs notes).foldl (fun acc p => dynamicConnStep notes ov dragIds p.1 acc p.2)
          ([], [])).2 := by
  unfold dynamicConnections
  rw [if_neg (by simp [List.length_eq_zero, hne])]
  exact congrArg Prod.snd
    (foldl_pairs (fun acc s t => dynamicConnStep notes ov dragIds s acc t)
      (fun s => s.links) notes ([], []))

theorem getLinkKey_comm (a b : String) (h : a ≠ b) : getLinkKey a b = getLinkKey b a := by
  unfold getLinkKey
  rcases lt_trichotomy a b with hlt | heq | hgt
  · rw [if_pos hlt, if_neg (not_lt_of_gt hlt)]
  · exact absurd heq h
  · rw [if_neg (not_lt_of_gt hgt), if_pos hgt]

theorem countPair_append (l1 l2 : List EdgeEl) (a b : String) :
    countPair (l1 ++ l2) a b = countPair l1 a b + countPair l2 a b := by
  unfold countPair
  rw [List.filter_append, List.length_append]

theorem countPair_push (els : List EdgeEl) (el : EdgeEl) (a b : String) :
    countPair (els ++ [el]) a b
      = countPair els a b
        + (if (el.sId = a ∧ el.tId = b) ∨ (el.sId = b ∧ el.tId = a) then 1 else 0) := by
  rw [countPair_append]
  congr 1
  by_cases h : (el.sId = a ∧ el.tId = b) ∨ (el.sId = b ∧ el.tId = a)
  · simp [countPair, h]
  · simp [countPair, h]

/-- Looking up the id of a present note succeeds and returns a note with
that id. -/
theorem find?_id_of_mem (notes : List Note) (n : Note) (hn : n ∈ notes) (t : String)
    (ht : n.id = t) :
    ∃ m, notes.find? (fun x => x.id = t) = some m ∧ m.id = t := by
  have hsome : (notes.find? (fun x => decide (x.id = t))).isSome :=
    List.find?_isSome.mpr ⟨n, hn, by simp [ht]⟩
  obtain ⟨m, hm⟩ := Option.isSome_iff_exists.mp hsome
  refine ⟨m, hm, ?_⟩
  have hp := List.find?_some hm
  simpa using hp

/-! Branch equations for the two per-occurrence steps. -/

theorem staticConnStep_mem (notes : List Note) (dragIds : List String) (source : Note)
    (acc : List String × List EdgeEl) (targetId : String)
    (h : getLinkKey source.id targetId ∈ acc.1) :
    staticConnStep notes dragIds source acc targetId = acc := by
  unfold staticConnStep
  rw [if_pos h]

theorem staticConnStep_none (notes : List Note) (dragIds : List String) (source : Note)
    (acc : List String × List EdgeEl) (targetId : String)
    (h : ¬ getLinkKey source.id targetId ∈ acc.1)
    (hf : notes.find? (fun n => n.id = targetId) = none) :
    staticConnStep notes dragIds source acc targetId
      = (acc.1 ++ [getLinkKey source.id targetId], acc.2) := by
  unfold staticConnStep
  rw [if_neg h]
  dsimp only
  rw [hf]

theorem staticConnStep_drag (notes : List Note) (dragIds : List String) (source : Note)
    (acc : List String × List EdgeEl) (targetId : String) (target : Note)
    (h : ¬ getLinkKey source.id targetId ∈ acc.1)
    (hf : notes.find? (fun n => n.id = targetId) = some target)
    (hd : source.id ∈ dragIds ∨ target.id ∈ dragIds) :
    staticConnStep notes dragIds source acc targetId
      = (acc.1 ++ [getLinkKey source.id targetId], acc.2) := by
  unfold staticConnStep
  rw [if_neg h]
  dsimp only
  rw [hf]
  dsimp only
  rw [if_pos hd]

theorem staticConnStep_push (notes : List Note) (dragIds : List String) (source : Note)
    (acc : List String × List EdgeEl) (targetId : String) (target : Note)
    (h : ¬ getLinkKey source.id targetId ∈ acc.1)
    (hf : notes.find? (fun n => n.id = targetId) = some target)
    (hd : ¬ (source.id ∈ dragIds ∨ target.id ∈ dragIds)) :
    staticConnStep notes dragIds source acc targetId
      = (acc.1 ++ [getLinkKey source.id targetId],
         acc.2 ++ [⟨getLinkKey source.id targetId, source.id, targetId,
                    ⟨source.x, source.y⟩, ⟨target.x, target.y⟩⟩]) := by
  unfold staticConnStep
  rw [if_neg h]
  dsimp only
  rw [hf]
  dsimp only
  rw [if_neg hd]

theorem dynamicConnStep_none (notes : List Note) (ov : List (String × Point))
    (dragIds : List String) (source : Note)
    (acc : List String × List EdgeEl) (targetId : String)
    (hf : notes.find? (fun n => n.id = targetId) = none) :
    dynamicConnStep notes ov dragIds source acc targetId = acc := by
  unfold dynamicConnStep
  rw [hf]

theorem dynamicConnStep_skip (notes : List Note) (ov : List (String × Point))
    (dragIds : List String) (source : Note)
    (acc : List String × List EdgeEl) (targetId : String) (target : Note)
    (hf : notes.find? (fun n => n.id = targetId) = some target)
    (hd : ¬ source.id ∈ dragIds ∧ ¬ targetId ∈ dragIds) :
    dynamicConnStep notes ov dragIds source acc targetId = acc := by
  unfold dynamicConnStep
  rw [hf]
  dsimp only
  rw [if_pos hd]

theorem dynamicConnStep_mem (notes : List Note) (ov : List (String × Point))
    (dragIds : List String) (source : Note)
    (acc : List String × List EdgeEl) (targetId : String) (target : Note)
    (hf : notes.find? (fun n => n.id = targetId) = some target)
    (hd : ¬ (¬ source.id ∈ dragIds ∧ ¬ targetId ∈ dragIds))
    (hkey : getLinkKey source.id targetId ∈ acc.1) :
    dynamicConnStep notes ov dragIds source acc targetId = acc := by
  unfold dynamicConnStep
  rw [hf]
  dsimp only
  rw [if_neg hd, if_pos hkey]

theorem dynamicConnStep_push (notes : List Note) (ov : List (String × Point))
    (dragIds : List String) (source : Note)
    (acc : List String × List EdgeEl) (targetId : String) (target : Note)
    (hf : notes.find? (fun n => n.id = targetId) = some target)
    (hd : ¬ (¬ source.id ∈ dragIds ∧ ¬ targetId ∈ dragIds))
    (hkey : ¬ getLinkKey source.id targetId ∈ acc.1) :
    dynamicConnStep notes ov dragIds source acc targetId
      = (acc.1 ++ [getLinkKey source.id targetId],
         acc.2 ++ [⟨getLinkKey source.id targetId, source.id, targetId,
                    dynGetPos ov source.id (some source),
                    dynGetPos ov targetId (some target)⟩]) := by
  unfold dynamicConnStep
  rw [hf]
  dsimp only
  rw [if_neg hd, if_neg hkey]

theorem exists_pairOcc_cons (A B : Note) (o : Note × String) (L : List (Note × String))
    (hpo : ¬ pairOcc A B o) :
    (∃ p ∈ o :: L, pairOcc A B p) ↔ (∃ p ∈ L, pairOcc A B p) := by
  constructor
  · rintro ⟨p, hp, hpp⟩
    rcases List.mem_cons.mp hp with he | hm
    · exact absurd (he ▸ hpp) hpo
    · exact ⟨p, hm, hpp⟩
  · rintro ⟨p, hp, hpp⟩
    exact ⟨p, List.mem_cons_of_mem o hp, hpp⟩

/-- When one endpoint of the pair is dragging, the static layer never
adds an element for the pair: a matching occurrence is skipped by the
drag check, every other push does not match the pair. -/
theorem staticCount_drag_aux (notes : List Note) (dragIds : List String) (A B : Note)
    (hd : A.id ∈ dragIds ∨ B.id ∈ dragIds) :
    ∀ (L : List (Note × String)) (processed : List String) (els : List EdgeEl),
      countPair ((L.foldl (fun acc p => staticConnStep notes dragIds p.1 acc p.2)
          (processed, els)).2) A.id B.id
        = countPair els A.id B.id := by
  intro L
  induction L with
  | nil => intro processed els; rfl
  | cons o L ih =>
      intro processed els
      rw [List.foldl_cons]
      by_cases hmem : getLinkKey o.1.id o.2 ∈ processed
      · rw [staticConnStep_mem notes dragIds o.1 (processed, els) o.2 hmem, ih]
      · cases hf : notes.find? (fun n => n.id = o.2) with
        | none =>
            rw [staticConnStep_none notes dragIds o.1 (processed, els) o.2 hmem hf, ih]
        | some target =>
            by_cases hdo : o.1.id ∈ dragIds ∨ target.id ∈ dragIds
            · rw [staticConnStep_drag notes dragIds o.1 (processed, els) o.2 target
                hmem hf hdo, ih]
            · have htid : target.id = o.2 := by
                have hp := List.find?_some hf
                simpa using hp
              have hnomatch :
                  ¬ ((o.1.id = A.id ∧ o.2 = B.id) ∨ (o.1.id = B.id ∧ o.2 = A.id)) := by
                rintro (⟨h1, h2⟩ | ⟨h1, h2⟩)
                · rcases hd with hdA | hdB
                  · exact hdo (Or.inl (by rw [h1]; exact hdA))
                  · exact hdo (Or.inr (by rw [htid, h2]; exact hdB))
                · rcases hd with hdA | hdB
                  · exact hdo (Or.inr (by rw [htid, h2]; exact hdA))
                  · exact hdo (Or.inl (by rw [h1]; exact hdB))
              rw [staticConnStep_push notes dragIds o.1 (processed, els) o.2 target
                hmem hf hdo, ih, countPair_push, if_neg hnomatch]
              exact Nat.add_zero _

/-- The static-layer count for an undragged pair: one element is pushed
at the first unprocessed occurrence of the pair, and only then. -/
theorem staticCount_aux (notes : List Note) (dragIds : List String) (A B : Note)
    (hA : A ∈ notes) (hB : B ∈ notes) (hAB : A.id ≠ B.id)
    (hdragA : ¬ A.id ∈ dragIds) (hdragB : ¬ B.id ∈ dragIds) :
    ∀ (L : List (Note × String)) (processed : List String) (els : List EdgeEl),
      (∀ o ∈ L, getLinkKey o.1.id o.2 = getLinkKey A.id B.id → pairOcc A B o) →
      countPair ((L.foldl (fun acc p => staticConnStep notes dragIds p.1 acc p.2)
          (processed, els)).2) A.id B.id
        = countPair els A.id B.id
          + (if getLinkKey A.id B.id ∈ processed then 0
             else if ∃ o ∈ L, pairOcc A B o then 1 else 0) := by
  intro L
  induction L with
  | nil =>
      intro processed els hinj
      simp only [List.foldl_nil]
      split
      · rfl
      · simp
  | cons o L ih =>
      intro processed els hinj
      have hinjL : ∀ p ∈ L, getLinkKey p.1.id p.2 = getLinkKey A.id B.id → pairOcc A B p :=
        fun p hp => hinj p (List.mem_cons_of_mem o hp)
      rw [List.foldl_cons]
      by_cases hpo : pairOcc A B o
      · have hkeyo : getLinkKey o.1.id o.2 = getLinkKey A.id B.id := by
          rcases hpo with ⟨h1, h2⟩ | ⟨h1, h2⟩
          · rw [h1, h2]
          · rw [h1, h2]
            exact getLinkKey_comm B.id A.id (fun he => hAB he.symm)
        by_cases hmem : getLinkKey o.1.id o.2 ∈ processed
        · rw [staticConnStep_mem notes dragIds o.1 (processed, els) o.2 hmem,
            ih processed els hinjL]
          have hP : getLinkKey A.id B.id ∈ processed := hkeyo ▸ hmem
          simp [hP]
        · have hnotP : ¬ getLinkKey A.id B.id ∈ processed := hkeyo ▸ hmem
          have hP2 : getLinkKey A.id B.id ∈ processed ++ [getLinkKey o.1.id o.2] := by
            rw [← hkeyo]
            exact List.mem_append_right _ (List.mem_singleton_self _)
          have hex : ∃ p ∈ o :: L, pairOcc A B p := ⟨o, List.mem_cons_self o L, hpo⟩
          rcases hpo with ⟨h1, h2⟩ | ⟨h1, h2⟩
          · obtain ⟨m, hm, hmid⟩ := find?_id_of_mem notes B hB o.2 (by rw [h2])
            have hdo : ¬ (o.1.id ∈ dragIds ∨ m.id ∈ dragIds) := by
              rintro (hx | hx)
              · exact hdragA (by rw [← h1]; exact hx)
              · exact hdragB (by rw [← h2, ← hmid]; exact hx)
            rw [staticConnStep_push notes dragIds o.1 (processed, els) o.2 m hmem hm hdo,
              ih _ _ hinjL, countPair_push, if_pos (Or.inl ⟨h1, h2⟩),
              if_pos hP2, if_neg hnotP, if_pos hex]
          · obtain ⟨m, hm, hmid⟩ := find?_id_of_mem notes A hA o.2 (by rw [h2])
            have hdo : ¬ (o.1.id ∈ dragIds ∨ m.id ∈ dragIds) := by
              rintro (hx | hx)
              · exact hdragB (by rw [← h1]; exact hx)
              · exact hdragA (by rw [← h2, ← hmid]; exact hx)
            rw [staticConnStep_push notes dragIds o.1 (processed, els) o.2 m hmem hm hdo,
              ih _ _ hinjL, countPair_push, if_pos (Or.inr ⟨h1, h2⟩),
              if_pos hP2, if_neg hnotP, if_pos hex]
      · have hkne : getLinkKey o.1.id o.2 ≠ getLinkKey A.id B.id :=
          fun he => hpo (hinj o (List.mem_cons_self o L) he)
        have hiff := exists_pairOcc_cons A B o L hpo
        have hPm : (getLinkKey A.id B.id ∈ processed ++ [getLinkKey o.1.id o.2])
            ↔ getLinkKey A.id B.id ∈ processed := by
          constructor
          · intro h
            rcases List.mem_append.mp h with h2 | h2
            · exact h2
            · exact absurd (List.mem_singleton.mp h2) (fun he => hkne he.symm)
          · exact List.mem_append_left _
        by_cases hmem : getLinkKey o.1.id o.2 ∈ processed
        · rw [staticConnStep_mem notes dragIds o.1 (processed, els) o.2 hmem,
            ih processed els hinjL]
          congr 1
          exact if_congr Iff.rfl rfl (if_congr hiff.symm rfl rfl)
        · cases hf : notes.find? (fun n => n.id = o.2) with
          | none =>
              rw [staticConnStep_none notes dragIds o.1 (processed, els) o.2 hmem hf,
                ih _ _ hinjL]
              congr 1
              exact if_congr hPm rfl (if_congr hiff.symm rfl rfl)
          | some target =>
              by_cases hdo : o.1.id ∈ dragIds ∨ target.id ∈ dragIds
              · rw [staticConnStep_drag notes dragIds o.1 (processed, els) o.2 target
                  hmem hf hdo, ih _ _ hinjL]
                congr 1
                exact if_congr hPm rfl (if_congr hiff.symm rfl rfl)
              · have hpo2 : ¬ ((o.1.id = A.id ∧ o.2 = B.id) ∨ (o.1.id = B.id ∧ o.2 = A.id)) :=
                  hpo
                rw [staticConnStep_push notes dragIds o.1 (processed, els) o.2 target
                  hmem hf hdo, ih _ _ hinjL, countPair_push, if_neg hpo2]
                rw [Nat.add_zero]
                congr 1
                exact if_congr hPm rfl (if_congr hiff.symm rfl rfl)

/-- With no dragging endpoint the dynamic layer pushes nothing for the
pair. -/
theorem dynCount_nodrag_aux (notes : List Note) (ov : List (String × Point))
    (dragIds : List String) (A B : Note)
    (hdA : ¬ A.id ∈ dragIds) (hdB : ¬ B.id ∈ dragIds) :
    ∀ (L : List (Note × String)) (processed : List String) (els : List EdgeEl),
      countPair ((L.foldl (fun acc p => dynamicConnStep notes ov dragIds p.1 acc p.2)
          (processed, els)).2) A.id B.id
        = countPair els A.id B.id := by
  intro L
  induction L with
  | nil => intro processed els; rfl
  | cons o L ih =>
      intro processed els
      rw [List.foldl_cons]
      cases hf : notes.find? (fun n => n.id = o.2) with
      | none =>
          rw [dynamicConnStep_none notes ov dragIds o.1 (processed, els) o.2 hf, ih]
      | some target =>
          by_cases hd : ¬ o.1.id ∈ dragIds ∧ ¬ o.2 ∈ dragIds
          · rw [dynamicConnStep_skip notes ov dragIds o.1 (processed, els) o.2 target
              hf hd, ih]
          · by_cases hkey : getLinkKey o.1.id o.2 ∈ processed
            · rw [dynamicConnStep_mem notes ov dragIds o.1 (processed, els) o.2 target
                hf hd hkey, ih]
            · have hnomatch :
                  ¬ ((o.1.id = A.id ∧ o.2 = B.id) ∨ (o.1.id = B.id ∧ o.2 = A.id)) := by
                rintro (⟨h1, h2⟩ | ⟨h1, h2⟩)
                · exact hd ⟨by rw [h1]; exact hdA, by rw [h2]; exact hdB⟩
                · exact hd ⟨by rw [h1]; exact hdB, by rw [h2]; exact hdA⟩
              rw [dynamicConnStep_push notes ov dragIds o.1 (processed, els) o.2 target
                hf hd hkey, ih, countPair_push, if_neg hnomatch]
              exact Nat.add_zero _

/-- With a dragging endpoint the dynamic layer pushes exactly one
element for the pair, at its first occurrence. -/
theorem dynCount_aux (notes : List Note) (ov : List (String × Point))
    (dragIds : List String) (A B : Note)
    (hA : A ∈ notes) (hB : B ∈ notes) (hAB : A.id ≠ B.id)
    (hd : A.id ∈ dragIds ∨ B.id ∈ dragIds) :
    ∀ (L : List (Note × String)) (processed : List String) (els : List EdgeEl),
      (∀ o ∈ L, getLinkKey o.1.id o.2 = getLinkKey A.id B.id → pairOcc A B o) →
      countPair ((L.foldl (fun acc p => dynamicConnStep notes ov dragIds p.1 acc p.2)
          (processed, els)).2) A.id B.id
        = countPair els A.id B.id
          + (if getLinkKey A.id B.id ∈ processed then 0
             else if ∃ o ∈ L, pairOcc A B o then 1 else 0) := by
  intro L
  induction L with
  | nil =>
      intro processed els hinj
      simp only [List.foldl_nil]
      split
      · rfl
      · simp
  | cons o L ih =>
      intro processed els hinj
      have hinjL : ∀ p ∈ L, getLinkKey p.1.id p.2 = getLinkKey A.id B.id → pairOcc A B p :=
        fun p hp => hinj p (List.mem_cons_of_mem o hp)
      rw [List.foldl_cons]
      by_cases hpo : pairOcc A B o
      · have hkeyo : getLinkKey o.1.id o.2 = getLinkKey A.id B.id := by
          rcases hpo with ⟨h1, h2⟩ | ⟨h1, h2⟩
          · rw [h1, h2]
          · rw [h1, h2]
            exact getLinkKey_comm B.id A.id (fun he => hAB he.symm)
        have hex : ∃ p ∈ o :: L, pairOcc A B p := ⟨o, List.mem_cons_self o L, hpo⟩
        have hnotskip : ¬ (¬ o.1.id ∈ dragIds ∧ ¬ o.2 ∈ dragIds) := by
          rcases hpo with ⟨h1, h2⟩ | ⟨h1, h2⟩
          · rcases hd with hx | hx
            · exact fun hcon => hcon.1 (by rw [h1]; exact hx)
            · exact fun hcon => hcon.2 (by rw [h2]; exact hx)
          · rcases hd with hx | hx
            · exact fun hcon => hcon.2 (by rw [h2]; exact hx)
            · exact fun hcon => hcon.1 (by rw [h1]; exact hx)
        have hfind : ∃ m, notes.find? (fun x => x.id = o.2) = some m ∧ m.id = o.2 := by
          rcases hpo with ⟨h1, h2⟩ | ⟨h1, h2⟩
          · exact find?_id_of_mem notes B hB o.2 (by rw [h2])
          · exact find?_id_of_mem notes A hA o.2 (by rw [h2])
        obtain ⟨m, hm, hmid⟩ := hfind
        by_cases hmem : getLinkKey o.1.id o.2 ∈ processed
        · rw [dynamicConnStep_mem notes ov dragIds o.1 (processed, els) o.2 m
            hm hnotskip hmem, ih processed els hinjL]
          have hP : getLinkKey A.id B.id ∈ processed := hkeyo ▸ hmem
          simp [hP]
        · have hnotP : ¬ getLinkKey A.id B.id ∈ processed := hkeyo ▸ hmem
          have hP2 : getLinkKey A.id B.id ∈ processed ++ [getLinkKey o.1.id o.2] := by
            rw [← hkeyo]
            exact List.mem_append_right _ (List.mem_singleton_self _)
          have hmatch : (o.1.id = A.id ∧ o.2 = B.id) ∨ (o.1.id = B.id ∧ o.2 = A.id) := hpo
          rw [dynamicConnStep_push notes ov dragIds o.1 (processed, els) o.2 m
            hm hnotskip hmem, ih _ _ hinjL, countPair_push, if_pos hmatch,
            if_pos hP2, if_neg hnotP, if_pos hex]
      · have hkne : getLinkKey o.1.id o.2 ≠ getLinkKey A.id B.id :=
          fun he => hpo (hinj o (List.mem_cons_self o L) he)
        have hiff := exists_pairOcc_cons A B o L hpo
        have hPm : (getLinkKey A.id B.id ∈ processed ++ [getLinkKey o.1.id o.2])
            ↔ getLinkKey A.id B.id ∈ processed := by
          constructor
          · intro h
            rcases List.mem_append.mp h with h2 | h2
            · exact h2
            · exact absurd (List.mem_singleton.mp h2) (fun he => hkne he.symm)
          · exact List.mem_append_left _
        cases hf : notes.find? (fun n => n.id = o.2) with
        | none =>
            rw [dynamicConnStep_none notes ov dragIds o.1 (processed, els) o.2 hf,
              ih processed els hinjL]
            congr 1
            exact if_congr Iff.rfl rfl (if_congr hiff.symm rfl rfl)
        | some target =>
            by_cases hdo : ¬ o.1.id ∈ dragIds ∧ ¬ o.2 ∈ dragIds
            · rw [dynamicConnStep_skip notes ov dragIds o.1 (processed, els) o.2 target
                hf hdo, ih processed els hinjL]
              congr 1
              exact if_congr Iff.rfl rfl (if_congr hiff.symm rfl rfl)
            · by_cases hmem : getLinkKey o.1.id o.2 ∈ processed
              · rw [dynamicConnStep_mem notes ov dragIds o.1 (processed, els) o.2 target
                  hf hdo hmem, ih processed els hinjL]
                congr 1
                exact if_congr Iff.rfl rfl (if_congr hiff.symm rfl rfl)
              · have hpo2 :
                    ¬ ((o.1.id = A.id ∧ o.2 = B.id) ∨ (o.1.id = B.id ∧ o.2 = A.id)) := hpo
                rw [dynamicConnStep_push notes ov dragIds o.1 (processed, els) o.2 target
                  hf hdo hmem, ih _ _ hinjL, countPair_push, if_neg hpo2, Nat.add_zero]
                congr 1
                exact if_congr hPm rfl (if_congr hiff.symm rfl rfl)

/-- Claim C3: for every notes list and every pair of distinct present
entities A and B whose adjacency records the link as A→B only, B→A only,
or both, the combined render output of the static and dynamic connection
layers contains exactly one edge element for the unordered pair, for any
set of actively dragged identifiers — under the side condition, true of
the application's fixed-length UUID identifiers, that the hyphen-joined
link key is injective on the occurring pairs. -/
theorem edge_pair_rendered_exactly_once :
    ∀ (notes : List Note) (dragIds : List String) (ov : List (String × Point)) (A B : Note),
      A ∈ notes → B ∈ notes → A.id ≠ B.id →
      (B.id ∈ A.links ∨ A.id ∈ B.links) →
      (∀ o ∈ occs notes, getLinkKey o.1.id o.2 = getLinkKey A.id B.id → pairOcc A B o) →
      countPair (staticConnections notes dragIds ++ dynamicConnections notes ov dragIds)
        A.id B.id = 1 := by
  intro notes dragIds ov A B hA hB hAB hrec hinj
  rw [countPair_append]
  have hocc : ∃ o ∈ occs notes, pairOcc A B o := by
    rcases hrec with h | h
    · exact ⟨(A, B.id),
        List.mem_flatMap.mpr ⟨A, hA, List.mem_map.mpr ⟨B.id, h, rfl⟩⟩,
        Or.inl ⟨rfl, rfl⟩⟩
    · exact ⟨(B, A.id),
        List.mem_flatMap.mpr ⟨B, hB, List.mem_map.mpr ⟨A.id, h, rfl⟩⟩,
        Or.inr ⟨rfl, rfl⟩⟩
  by_cases hd : A.id ∈ dragIds ∨ B.id ∈ dragIds
  · have hs : countPair (staticConnections notes dragIds) A.id B.id = 0 := by
      rw [staticConnections_eq,
        staticCount_drag_aux notes dragIds A B hd (occs notes) [] []]
      rfl
    have hdne : dragIds ≠ [] := by
      intro he
      rcases hd with h | h <;> rw [he] at h <;> exact (List.not_mem_nil _) h
    have hdyn : countPair (dynamicConnections notes ov dragIds) A.id B.id = 1 := by
      rw [dynamicConnections_eq notes ov dragIds hdne,
        dynCount_aux notes ov dragIds A B hA hB hAB hd (occs notes) [] [] hinj,
        if_neg (List.not_mem_nil _), if_pos hocc]
      rfl
    rw [hs, hdyn]
  · push_neg at hd
    have hs : countPair (staticConnections notes dragIds) A.id B.id = 1 := by
      rw [staticConnections_eq,
        staticCount_aux notes dragIds A B hA hB hAB hd.1 hd.2 (occs notes) [] [] hinj,
        if_neg (List.not_mem_nil _), if_pos hocc]
      rfl
    have hdyn : countPair (dynamicConnections notes ov dragIds) A.id B.id = 0 := by
      by_cases hdne : dragIds = []
      · rw [hdne]
        rfl
      · rw [dynamicConnections_eq notes ov dragIds hdne,
          dynCount_nodrag_aux notes ov dragIds A B hd.1 hd.2 (occs notes) [] []]
        rfl
    rw [hs, hdyn]

def noteA3 : Note := ⟨"a", "", "", [], false, 0, 0, 0, 0, ["b"]⟩

def noteB3 : Note := ⟨"b", "", "", [], false, 0, 0, 50, 0, []⟩

/-- Witness for the edge-dedup theorem: a two-note graph storing the
link on one side only renders exactly one edge element. -/
theorem edge_pair_rendered_exactly_once_witness :
    countPair (staticConnections [noteA3, noteB3] []
        ++ dynamicConnections [noteA3, noteB3] [] [])
      noteA3.id noteB3.id = 1 :=
  edge_pair_rendered_exactly_once [noteA3, noteB3] [] [] noteA3 noteB3
    (List.mem_cons_self _ _)
    (List.mem_cons_of_mem _ (List.mem_cons_self _ _))
    (by decide)
    (Or.inl (List.mem_singleton_self _))
    (by
      intro o ho hk
      have heq : o = (noteA3, "b") := by
        simpa [occs, noteA3, noteB3] using ho
      subst heq
      exact Or.inl ⟨rfl, rfl⟩)

def noteX : Note := ⟨"x", "", "", [], false, 0, 0, 0, 0, ["y-z"]⟩

def noteYZ : Note := ⟨"y-z", "", "", [], false, 0, 0, 10, 0, []⟩

def noteXY : Note := ⟨"x-y", "", "", [], false, 0, 0, 20, 0, ["z"]⟩

def noteZ : Note := ⟨"z", "", "", [], false, 0, 0, 30, 0, []⟩

def collNotes : List Note := [noteXY, noteZ, noteX, noteYZ]

/-- Counterexample to claim C3 as literally stated, over every notes
list: the hyphen-joined link key collides for ids containing hyphens
(getLinkKey "x" "y-z" and getLinkKey "x-y" "z" both give "x-y-z"), so
the earlier-scanned pair consumes the dedup key and the pair (x, y-z) —
present, distinct, recorded x→y-z — renders zero edge elements instead
of exactly one. -/
theorem edge_pair_collision_counterexample :
    noteX ∈ collNotes ∧ noteYZ ∈ collNotes
    ∧ noteX.id ≠ noteYZ.id
    ∧ noteYZ.id ∈ noteX.links
    ∧ getLinkKey noteX.id noteYZ.id = getLinkKey noteXY.id noteZ.id
    ∧ countPair (staticConnections collNotes [] ++ dynamicConnections collNotes [] [])
        noteX.id noteYZ.id = 0 := by
  have hk1 : getLinkKey noteXY.id "z" = "x-y-z" := by
    unfold getLinkKey
    rw [if_pos (show noteXY.id < "z" from by
      show ("x-y" : String) < "z"
      simp
      decide)]
    rfl
  have hk2 : getLinkKey noteX.id "y-z" = "x-y-z" := by
    unfold getLinkKey
    rw [if_pos (show noteX.id < "y-z" from by
      show ("x" : String) < "y-z"
      simp
      decide)]
    rfl
  refine ⟨List.mem_cons_of_mem _ (List.mem_cons_of_mem _ (List.mem_cons_self _ _)),
    List.mem_cons_of_mem _ (List.mem_cons_of_mem _ (List.mem_cons_of_mem _
      (List.mem_cons_self _ _))),
    by decide, by decide, ?_, ?_⟩
  · show getLinkKey noteX.id "y-z" = getLinkKey noteXY.id "z"
    rw [hk1, hk2]
  · rw [countPair_append, show dynamicConnections collNotes [] [] = [] from rfl,
      staticConnections_eq,
      show occs collNotes = [(noteXY, "z"), (noteX, "y-z")] from rfl,
      List.foldl_cons,
      staticConnStep_push collNotes [] noteXY ([], []) "z" noteZ (List.not_mem_nil _)
        rfl (by rintro (h | h) <;> exact (List.not_mem_nil _) h),
      List.foldl_cons,
      staticConnStep_mem collNotes [] noteX _ "y-z"
        (by rw [hk2]; rw [show ([] : List String) ++ [getLinkKey noteXY.id "z"]
              = [getLinkKey noteXY.id "z"] from rfl, hk1]; simp),
      List.foldl_nil]
    decide

end GraphView
